import Mathlib

/-!
Verification of the appconfigguard core: the flatten/unflatten transform
(pkg/json/flattener.go), the value classifier (pkg/validator/validator.go),
the diff engine (pkg/diff, Compare), the reconciliation retry loop
(pkg/sync/engine.go) and the Key Vault wire-encoding normalization
(pkg/azure/client.go).

Strings are modelled as lists of characters (Go iterates strings by rune in
every code path relevant here, and all length checks involved are over ASCII
data, where byte count and rune count coincide).  Go maps are modelled as
association lists with last-write-wins insertion; where the source iterates a
map in unspecified order the model iterates in list order.
-/

set_option maxRecDepth 20000

abbrev Str := List Char

/-- Coerce a Lean string literal to the character-list representation. -/
def str (s : String) : Str := s.data

/-- Go strings.HasPrefix(s, p). -/
def goHasPrefix (s p : Str) : Bool := decide (p <+: s)

/-- Go strings.HasSuffix(s, p). -/
def goHasSuffix (s p : Str) : Bool := decide (p <:+ s)

/-- Go strings.Contains(s, sub). -/
def goContains (s sub : Str) : Bool := decide (sub <:+: s)

/-- Go strings.Split(s, sep) for a one-character separator: splitting the
empty string yields one empty field, and n separators yield n+1 fields. -/
def splitOnChar (c : Char) : Str → List Str
  | [] => [[]]
  | x :: xs =>
    match splitOnChar c xs with
    | [] => [[x]]
    | h :: t => if x = c then [] :: h :: t else (x :: h) :: t

/-- Go strings.SplitN(s, "=", 2): split at the first '=' only; if there is no
'=', the result has a single field. -/
def splitN2Eq (s : Str) : List Str :=
  match s.findIdx? (· = '=') with
  | none => [s]
  | some i => [s.take i, s.drop (i + 1)]

/-- Go strings.TrimSpace. -/
def goTrimSpace (s : Str) : Str :=
  ((s.dropWhile Char.isWhitespace).reverse.dropWhile Char.isWhitespace).reverse

/-- Go strings.Trim(s, "/"): drop '/' characters from both ends. -/
def goTrimSlashes (s : Str) : Str :=
  ((s.dropWhile (· = '/')).reverse.dropWhile (· = '/')).reverse

/-- ASCII lower-casing of one character (Go strings.ToLower; all keys and
values the classifier inspects are ASCII). -/
def goToLowerChar (c : Char) : Char :=
  if 'A' ≤ c ∧ c ≤ 'Z' then Char.ofNat (c.toNat + 32) else c

/-- Go strings.ToLower. -/
def goToLower (s : Str) : Str := s.map goToLowerChar

/-- ASCII upper-casing of one character (unicode.ToTitle restricted to
ASCII, as exercised by the feature-flag keys). -/
def goToUpperChar (c : Char) : Char :=
  if 'a' ≤ c ∧ c ≤ 'z' then Char.ofNat (c.toNat - 32) else c

/-- Word separator as used by Go strings.Title: for ASCII, everything except
letters, digits and underscore separates words; beyond ASCII only whitespace
is modelled. -/
def goTitleSep (c : Char) : Bool :=
  if c.toNat ≤ 0x7F then
    !(c.isDigit || ('a' ≤ c ∧ c ≤ 'z') || ('A' ≤ c ∧ c ≤ 'Z') || c = '_')
  else c.isWhitespace

/-- Worker for Go strings.Title: title-case a character whenever the previous
character is a separator; the previous character starts out as a space. -/
def goTitleAux : Char → Str → Str
  | _, [] => []
  | prev, c :: cs => (if goTitleSep prev then goToUpperChar c else c) :: goTitleAux c cs

/-- Go strings.Title. -/
def goTitle (s : Str) : Str := goTitleAux ' ' s

/-- Go strings.ReplaceAll for a one-character pattern and replacement. -/
def goReplaceAllChar (a b : Char) (s : Str) : Str :=
  s.map (fun c => if c = a then b else c)

/-- Go strconv.Atoi: optional single sign, one or more ASCII digits, 64-bit
signed range; anything else is an error (modelled as none). -/
def goAtoi (s : Str) : Option Int :=
  let (neg, digits) :=
    match s with
    | '+' :: rest => (false, rest)
    | '-' :: rest => (true, rest)
    | _ => (false, s)
  if digits = [] ∨ ¬ digits.all Char.isDigit then none
  else
    let n : Nat := digits.foldl (fun acc c => acc * 10 + (c.toNat - 48)) 0
    let v : Int := if neg then -(n : Int) else (n : Int)
    if v < -(2 ^ 63 : Int) ∨ (2 ^ 63 : Int) - 1 < v then none else some v

/-- Go map assignment m[k] = v on an association list: replace the existing
binding in place, else append. -/
def mapInsert {α : Type} : List (Str × α) → Str → α → List (Str × α)
  | [], k, v => [(k, v)]
  | (k', v') :: rest, k, v =>
    if k' = k then (k, v) :: rest else (k', v') :: mapInsert rest k v

/-- Go map lookup m[k]. -/
def mapLookup {α : Type} : List (Str × α) → Str → Option α
  | [], _ => none
  | (k', v') :: rest, k => if k' = k then some v' else mapLookup rest k

/-- Go delete(m, k). -/
def mapErase {α : Type} : List (Str × α) → Str → List (Str × α)
  | [], _ => []
  | (k', v') :: rest, k => if k' = k then rest else (k', v') :: mapErase rest k

/-! ## Value classifier (pkg/validator/validator.go) -/

/-- ValueType from validator.go. -/
inductive ValueType where
  | regular
  | feature_flag
  | keyvault
deriving DecidableEq, Repr

/-- FeatureFlag from validator.go (the Conditions field is never populated by
the classifier and is omitted). -/
structure FeatureFlag where
  Description : Str
  Enabled : Bool
deriving DecidableEq, Repr

/-- KeyVaultReference from validator.go. -/
structure KeyVaultReference where
  VaultURL : Str
  SecretName : Str
  SecretVersion : Str
deriving DecidableEq, Repr

/-- The dynamically-typed ParsedValue field of SpecialValue. -/
inductive ParsedVal where
  | regular (s : Str)
  | flag (ff : FeatureFlag)
  | kv (ref : KeyVaultReference)
deriving DecidableEq, Repr

/-- SpecialValue from validator.go. -/
structure SpecialValue where
  Typ : ValueType
  Original : Str
  ParsedValue : ParsedVal
deriving DecidableEq, Repr

/-- The "@Microsoft.KeyVault(" marker. -/
def kvMarker : Str := str "@Microsoft.KeyVault("

/-- The "https://" scheme marker. -/
def httpsMarker : Str := str "https://"

/-- The "vault.azure.net" host marker. -/
def vaultHostMarker : Str := str "vault.azure.net"

/-- The parenthesized parameter list of a @Microsoft.KeyVault(...) value:
split on ';', split each field at the first '=', trim spaces, and build a map
(duplicate parameter names: last one wins), exactly as both
validator.parseKeyVaultReference and client.formatKeyVaultReference do. -/
def parseKVParams (content : Str) : List (Str × Str) :=
  (splitOnChar ';' content).foldl
    (fun params param =>
      match splitN2Eq param with
      | [k, v] => mapInsert params (goTrimSpace k) (goTrimSpace v)
      | _ => params)
    []

/-- Result of net/url.Parse as used by parseKeyVaultURI: scheme, host
(including any port), and percent-decoded path (query and fragment are split
off and unused). -/
structure GoURL where
  Scheme : Str
  Host : Str
  Path : Str
deriving DecidableEq, Repr

/-- Split a string at the first occurrence of "://". -/
def splitSchemeSep : Str → Option (Str × Str)
  | [] => none
  | c :: cs =>
    if goHasPrefix (c :: cs) (str "://") then some ([], (c :: cs).drop 3)
    else (splitSchemeSep cs).map (fun p => (c :: p.1, p.2))

/-- A valid URL scheme: a letter followed by letters, digits, '+', '-', '.'
(net/url getScheme). -/
def validScheme (s : Str) : Bool :=
  match s with
  | [] => false
  | c :: rest =>
    (c.isAlpha : Bool) && rest.all (fun d => d.isAlpha || d.isDigit || d = '+' || d = '-' || d = '.')

/-- The value of a hexadecimal digit, or none. -/
def hexVal (c : Char) : Option Nat :=
  if '0' ≤ c ∧ c ≤ '9' then some (c.toNat - 48)
  else if 'a' ≤ c ∧ c ≤ 'f' then some (c.toNat - 97 + 10)
  else if 'A' ≤ c ∧ c ≤ 'F' then some (c.toNat - 65 + 10)
  else none

/-- Percent-decode a URL path (net/url unescaping); a '%' not followed by two
hex digits is an invalid escape and fails the whole parse. -/
def percentDecode : Str → Option Str
  | [] => some []
  | '%' :: rest =>
    match rest with
    | h1 :: h2 :: rest2 =>
      match hexVal h1, hexVal h2 with
      | some a, some b => (percentDecode rest2).map (fun d => Char.ofNat (a * 16 + b) :: d)
      | _, _ => none
    | _ => none
  | c :: rest => (percentDecode rest).map (fun d => c :: d)

/-- net/url.Parse, modelled for the absolute and scheme-less forms the
classifier can meet: control characters are rejected; "://" splits scheme
from the rest when the scheme is well formed (an empty scheme is the
"missing protocol scheme" error); the host runs to the first '/', '?' or
'#'; the path runs to the first '?' or '#' and is percent-decoded; a string
without a well-formed scheme is all path with an empty host. -/
def goURLParse (s : Str) : Option GoURL :=
  if s.any (fun c => c.toNat < 0x20) then none
  else
    match splitSchemeSep s with
    | some (scheme, rest) =>
      if scheme = [] then none
      else if validScheme scheme then
        let host := rest.takeWhile (fun c => c ≠ '/' ∧ c ≠ '?' ∧ c ≠ '#')
        let tail := rest.drop host.length
        let rawPath := tail.takeWhile (fun c => c ≠ '?' ∧ c ≠ '#')
        (percentDecode rawPath).map (fun p => ⟨scheme, host, p⟩)
      else
        (percentDecode (s.takeWhile (fun c => c ≠ '?' ∧ c ≠ '#'))).map
          (fun p => ⟨[], [], p⟩)
    | none =>
      (percentDecode (s.takeWhile (fun c => c ≠ '?' ∧ c ≠ '#'))).map
        (fun p => ⟨[], [], p⟩)

/-- isValidSecretName from validator.go: 1-127 characters, each alphanumeric,
hyphen or underscore. -/
def isValidSecretName (name : Str) : Bool :=
  if name.length < 1 ∨ 127 < name.length then false
  else name.all (fun r =>
    ('a' ≤ r ∧ r ≤ 'z') ∨ ('A' ≤ r ∧ r ≤ 'Z') ∨ ('0' ≤ r ∧ r ≤ '9') ∨ r = '-' ∨ r = '_')

/-- parseKeyVaultURI from validator.go. -/
def parseKeyVaultURI (uri : Str) : Except Str KeyVaultReference :=
  match goURLParse uri with
  | none => .error (str "invalid Key Vault URI")
  | some u =>
    if ¬ goContains u.Host vaultHostMarker then .error (str "not a valid Key Vault URI")
    else
      let pathParts := splitOnChar '/' (goTrimSlashes u.Path)
      if pathParts.length < 2 ∨ pathParts.headD [] ≠ str "secrets" then
        .error (str "invalid Key Vault secret path")
      else
        let name := pathParts.getD 1 []
        let vers := if 2 < pathParts.length then pathParts.getD 2 [] else []
        if ¬ isValidSecretName name then .error (str "invalid secret name: " ++ name)
        else .ok ⟨httpsMarker ++ u.Host, name, vers⟩

/-- parseKeyVaultReference from validator.go. -/
def parseKeyVaultReference (value : Str) : Except Str KeyVaultReference :=
  if goHasPrefix value kvMarker ∧ goHasSuffix value (str ")") then
    let content := (value.dropLast).drop kvMarker.length
    match mapLookup (parseKVParams content) (str "SecretUri") with
    | none => .error (str "missing SecretUri in Key Vault reference")
    | some secretURI => parseKeyVaultURI secretURI
  else if goHasPrefix value httpsMarker ∧ goContains value vaultHostMarker then
    parseKeyVaultURI value
  else if goHasPrefix value httpsMarker then
    .error (str "not a valid Key Vault URI")
  else
    .error (str "invalid Key Vault reference format")

/-- isFeatureFlagKey from validator.go: the eight anchored regular
expressions are literal prefix/suffix tests on the lower-cased key. -/
def isFeatureFlagKey (key : Str) : Bool :=
  let k := goToLower key
  goHasPrefix k (str "feature.") || goHasPrefix k (str "flag.") ||
  goHasSuffix k (str ".enabled") || goHasSuffix k (str ".disabled") ||
  goHasPrefix k (str "enable.") || goHasPrefix k (str "disable.") ||
  goHasSuffix k (str ".feature") || goHasSuffix k (str ".flag")

/-- extractFeatureDescription from validator.go: dots and underscores become
spaces, then strings.Title. -/
def extractFeatureDescription (key : Str) : Str :=
  goTitle (goReplaceAllChar '_' ' ' (goReplaceAllChar '.' ' ' key))

/-- The truthy value set of parseFeatureFlag. -/
def truthyValues : List Str := [str "true", str "1", str "yes", str "on", str "enabled"]

/-- The falsy value set of parseFeatureFlag. -/
def falsyValues : List Str := [str "false", str "0", str "no", str "off", str "disabled"]

/-- parseFeatureFlag from validator.go. -/
def parseFeatureFlag (key value : Str) : Except Str FeatureFlag :=
  if isFeatureFlagKey key then
    let lv := goToLower value
    if lv ∈ truthyValues then .ok ⟨extractFeatureDescription key, true⟩
    else if lv ∈ falsyValues then .ok ⟨extractFeatureDescription key, false⟩
    else .error (str "invalid feature flag value: " ++ value)
  else .error (str "not a feature flag key")

/-- validateKeyVaultReference from validator.go; some = the error message. -/
def validateKeyVaultReference (ref : KeyVaultReference) : Option Str :=
  if ¬ goHasPrefix ref.VaultURL httpsMarker ∨ ¬ goContains ref.VaultURL vaultHostMarker then
    some (str "invalid vault URL format")
  else if ref.SecretName = [] then some (str "secret name cannot be empty")
  else none

/-- validateFeatureFlag from validator.go; some = the error message. -/
def validateFeatureFlag (ff : FeatureFlag) : Option Str :=
  if ff.Description = [] then some (str "feature flag should have a description")
  else none

/-- ValidateAndParseValue from validator.go. -/
def ValidateAndParseValue (key value : Str) : Except Str SpecialValue :=
  if goHasPrefix value kvMarker then
    match parseKeyVaultReference value with
    | .ok kvRef =>
      match validateKeyVaultReference kvRef with
      | some verr => .error (str "Key Vault validation error: " ++ verr)
      | none => .ok ⟨.keyvault, value, .kv kvRef⟩
    | .error e => .error (str "invalid Key Vault reference: " ++ e)
  else if goHasPrefix value httpsMarker ∧ goContains value vaultHostMarker then
    match parseKeyVaultReference value with
    | .ok kvRef =>
      match validateKeyVaultReference kvRef with
      | some verr => .error (str "Key Vault validation error: " ++ verr)
      | none => .ok ⟨.keyvault, value, .kv kvRef⟩
    | .error e => .error (str "invalid Key Vault reference: " ++ e)
  else
    match parseFeatureFlag key value with
    | .ok ff =>
      match validateFeatureFlag ff with
      | some verr => .error (str "feature flag validation error: " ++ verr)
      | none => .ok ⟨.feature_flag, value, .flag ff⟩
    | .error _ => .ok ⟨.regular, value, .regular value⟩

/-- ValidationError from validator.go. -/
structure ValidationError where
  Key : Str
  Value : Str
  Message : Str
  Typ : Str
deriving DecidableEq, Repr

/-- The post-classification switch of ValidateConfiguration: re-validate a
successfully classified value (these checks were already performed inside
ValidateAndParseValue, so they are provably dead). -/
def postValidationErrors (k v : Str) (sv : SpecialValue) : List ValidationError :=
  match sv.Typ, sv.ParsedValue with
  | .keyvault, .kv ref =>
    match validateKeyVaultReference ref with
    | some e => [⟨k, v, str "Key Vault validation error: " ++ e, str "keyvault_error"⟩]
    | none => []
  | .feature_flag, .flag ff =>
    match validateFeatureFlag ff with
    | some e => [⟨k, v, str "Feature flag validation error: " ++ e, str "feature_flag_error"⟩]
    | none => []
  | _, _ => []

/-- The loop body of ValidateConfiguration over the configuration entries. -/
def validateConfigLoop : List (Str × Str) → List ValidationError
  | [] => []
  | (k, v) :: rest =>
    match ValidateAndParseValue k v with
    | .error e => ⟨k, v, e, str "parsing_error"⟩ :: validateConfigLoop rest
    | .ok sv => postValidationErrors k v sv ++ validateConfigLoop rest

/-- ValidateConfiguration from validator.go: the collected error list paired
with the always-nil fatal error. -/
def ValidateConfiguration (config : List (Str × Str)) : List ValidationError × Option Str :=
  (validateConfigLoop config, none)

/-! ## Flatten/Unflatten transform (pkg/json/flattener.go) -/

/-- A JSON-decoded Go value as fed to Flatten: nil, bool, number, string,
slice, or string-keyed map.  Numbers are modelled as integers (the test
inputs are Go ints; float rendering is irrelevant to the claims). -/
inductive ConfigTree where
  | null
  | boolean (x : Bool)
  | int (n : Int)
  | string (s : Str)
  | list (xs : List ConfigTree)
  | obj (kvs : List (Str × ConfigTree))

/-- formatValue from flattener.go, for the scalar kinds of ConfigTree:
strconv.FormatBool / strconv.FormatInt base 10 / the string itself. -/
def formatValue : ConfigTree → Str
  | .boolean true => str "true"
  | .boolean false => str "false"
  | .int n => (toString n).data
  | .string s => s
  | _ => []

/-- joinKeys from flattener.go. -/
def joinKeys (pfx key : Str) : Str :=
  if pfx = [] then key else pfx ++ '.' :: key

mutual

/-- flattenRecursive from flattener.go: depth-first walk writing rendered
scalars into the result map; a nil value contributes nothing.  The
default (json.Marshal) branch is unreachable for JSON-decoded input, which
is only ever nil/bool/number/string/slice/map. -/
def flattenRecursive : ConfigTree → Str → List (Str × Str) → List (Str × Str)
  | .null, _, result => result
  | .boolean x, pfx, result => mapInsert result pfx (formatValue (.boolean x))
  | .int n, pfx, result => mapInsert result pfx (formatValue (.int n))
  | .string s, pfx, result => mapInsert result pfx (formatValue (.string s))
  | .list xs, pfx, result => flattenSliceLoop xs 0 pfx result
  | .obj kvs, pfx, result => flattenMapLoop kvs pfx result

/-- flattenMap from flattener.go: each key extends the dotted prefix. -/
def flattenMapLoop : List (Str × ConfigTree) → Str → List (Str × Str) → List (Str × Str)
  | [], _, result => result
  | (k, v) :: rest, pfx, result =>
    flattenMapLoop rest pfx (flattenRecursive v (joinKeys pfx k) result)

/-- flattenSlice from flattener.go: each element extends the prefix with its
zero-based decimal index. -/
def flattenSliceLoop : List ConfigTree → Nat → Str → List (Str × Str) → List (Str × Str)
  | [], _, _, result => result
  | x :: rest, i, pfx, result =>
    flattenSliceLoop rest (i + 1) pfx (flattenRecursive x (joinKeys pfx (toString i).data) result)

end

/-- Flatten from flattener.go. -/
def Flatten (data : ConfigTree) : List (Str × Str) :=
  flattenRecursive data [] []

/-- A JSON value as built by Unflatten / json.Unmarshal: Go's
map[string]interface-trees.  Numbers are carried as their literal text. -/
inductive JValue where
  | null
  | boolean (x : Bool)
  | num (lit : Str)
  | string (s : Str)
  | arr (xs : List JValue)
  | obj (kvs : List (Str × JValue))

/-- Decode one JSON string body after the opening quote; returns the decoded
content and the remainder after the closing quote. -/
def parseJStringBody : Str → Option (Str × Str)
  | [] => none
  | c :: rest =>
    if c = '"' then some ([], rest)
    else if c = '\\' then
      match rest with
      | [] => none
      | e :: rest2 =>
        if e = '"' then (parseJStringBody rest2).map (fun p => ('"' :: p.1, p.2))
        else if e = '\\' then (parseJStringBody rest2).map (fun p => ('\\' :: p.1, p.2))
        else if e = '/' then (parseJStringBody rest2).map (fun p => ('/' :: p.1, p.2))
        else if e = 'n' then (parseJStringBody rest2).map (fun p => ('\n' :: p.1, p.2))
        else if e = 'r' then (parseJStringBody rest2).map (fun p => ('\r' :: p.1, p.2))
        else if e = 't' then (parseJStringBody rest2).map (fun p => ('\t' :: p.1, p.2))
        else if e = 'b' then (parseJStringBody rest2).map (fun p => ('\x08' :: p.1, p.2))
        else if e = 'f' then (parseJStringBody rest2).map (fun p => ('\x0c' :: p.1, p.2))
        else if e = 'u' then
          match rest2 with
          | h1 :: h2 :: h3 :: h4 :: rest3 =>
            match hexVal h1, hexVal h2, hexVal h3, hexVal h4 with
            | some a, some b, some c3, some d =>
              (parseJStringBody rest3).map
                (fun p => (Char.ofNat (((a * 16 + b) * 16 + c3) * 16 + d) :: p.1, p.2))
            | _, _, _, _ => none
          | _ => none
        else none
    else (parseJStringBody rest).map (fun p => (c :: p.1, p.2))

/-- JSON whitespace. -/
def jsonWs (c : Char) : Bool := c = ' ' || c = '\t' || c = '\n' || c = '\r'

/-- Skip JSON whitespace. -/
def skipWs (s : Str) : Str := s.dropWhile jsonWs

/-- A JSON number literal: optional minus, digits, optional fraction and
exponent (captured as raw text). -/
def numChar (c : Char) : Bool :=
  c.isDigit || c = '-' || c = '+' || c = '.' || c = 'e' || c = 'E'

mutual

/-- json.Unmarshal into interface-typed Go values, modelled as a
recursive-descent parser with an explicit fuel bound (the input length
suffices since every recursive call consumes at least one character).
Numbers are kept as their literal text. -/
def parseJValue (fuel : Nat) (s : Str) : Option (JValue × Str) :=
  match fuel with
  | 0 => none
  | fuel + 1 =>
    match skipWs s with
    | [] => none
    | c :: rest =>
      if c = '"' then (parseJStringBody rest).map (fun p => (JValue.string p.1, p.2))
      else if c = 't' then
        if goHasPrefix rest (str "rue") then some (.boolean true, rest.drop 3) else none
      else if c = 'f' then
        if goHasPrefix rest (str "alse") then some (.boolean false, rest.drop 4) else none
      else if c = 'n' then
        if goHasPrefix rest (str "ull") then some (.null, rest.drop 3) else none
      else if c = '[' then
        match skipWs rest with
        | ']' :: rest2 => some (.arr [], rest2)
        | _ => parseJArrayItems fuel rest []
      else if c = '\x7b' then
        match skipWs rest with
        | '\x7d' :: rest2 => some (.obj [], rest2)
        | _ => parseJObjectItems fuel rest []
      else if c.isDigit || c = '-' then
        let lit := (c :: rest).takeWhile numChar
        some (.num lit, (c :: rest).drop lit.length)
      else none

/-- Array elements: value, then ',' for more or ']' to close. -/
def parseJArrayItems (fuel : Nat) (s : Str) (acc : List JValue) : Option (JValue × Str) :=
  match fuel with
  | 0 => none
  | fuel + 1 =>
    match parseJValue fuel s with
    | none => none
    | some (v, rest) =>
      match skipWs rest with
      | ',' :: rest2 => parseJArrayItems fuel rest2 (acc ++ [v])
      | ']' :: rest2 => some (.arr (acc ++ [v]), rest2)
      | _ => none

/-- Object members: string key, ':', value, then ',' for more or the closing
brace. -/
def parseJObjectItems (fuel : Nat) (s : Str) (acc : List (Str × JValue)) : Option (JValue × Str) :=
  match fuel with
  | 0 => none
  | fuel + 1 =>
    match skipWs s with
    | '"' :: rest =>
      match parseJStringBody rest with
      | none => none
      | some (key, rest2) =>
        match skipWs rest2 with
        | ':' :: rest3 =>
          match parseJValue fuel rest3 with
          | none => none
          | some (v, rest4) =>
            match skipWs rest4 with
            | ',' :: rest5 => parseJObjectItems fuel rest5 (acc ++ [(key, v)])
            | '\x7d' :: rest5 => some (.obj (acc ++ [(key, v)]), rest5)
            | _ => none
        | _ => none
    | _ => none

end

/-- json.Unmarshal of a whole string: parse one value and require only
whitespace after it. -/
def goJSONUnmarshal (s : Str) : Option JValue :=
  match parseJValue (s.length + 1) s with
  | some (v, rest) => if skipWs rest = [] then some v else none
  | none => none

/-- parseValue from flattener.go: only strings that look like a JSON object
or array are parsed as JSON (and kept verbatim if that parse fails); every
other value stays a plain string. -/
def parseValue (value : Str) : JValue :=
  if (goHasPrefix value (str "\x7b") ∧ goHasSuffix value (str "\x7d")) ∨
     (goHasPrefix value (str "[") ∧ goHasSuffix value (str "]")) then
    match goJSONUnmarshal value with
    | some j => j
    | none => .string value
  else .string value

/-- isArrayIndex from flattener.go: strconv.Atoi succeeds — note that this
accepts signed integers, not only non-negative ones. -/
def isArrayIndex (s : Str) : Bool := (goAtoi s).isSome

/-- Result of an Unflatten step: ok, a type-conflict error, or a Go runtime
panic (slice index out of range). -/
inductive URes (α : Type) where
  | panicked
  | err (msg : Str)
  | ok (a : α)

/-- Grow a slice with nil placeholders until the index is in range
(the `for len(arr) <= index` loop); a negative index leaves it unchanged. -/
def growWithNil (arr : List JValue) (index : Int) : List JValue :=
  if index < 0 then arr
  else arr ++ List.replicate (index.toNat + 1 - arr.length) JValue.null

/-- unflattenRecursive from flattener.go.  Go's in-place mutation of nested
containers is rendered functionally: the recursively updated child is written
back into its parent.  Indexing `arr[index]` with a negative index is the Go
runtime panic the source does not guard against. -/
def unflattenRecursive (current : List (Str × JValue)) :
    List Str → Str → URes (List (Str × JValue))
  | [], _ => .ok current
  | [key], value => .ok (mapInsert current key (parseValue value))
  | key :: seg :: rest, value =>
    if isArrayIndex seg then
      let cur0 := match mapLookup current key with
        | none => JValue.arr []
        | some x => x
      match cur0 with
      | .arr arr =>
        let index := (goAtoi seg).getD 0
        let arr := growWithNil arr index
        if index < 0 then .panicked
        else
          let i := index.toNat
          let elem := arr.getD i .null
          let childKvs := match elem with
            | .obj kvs => kvs
            | _ => []
          match unflattenRecursive childKvs rest value with
          | .ok childKvs2 =>
            .ok (mapInsert current key (.arr (arr.set i (.obj childKvs2))))
          | .err m => .err m
          | .panicked => .panicked
      | _ => .err (str "type conflict at key " ++ key)
    else
      let childKvs := match mapLookup current key with
        | none => some []
        | some (JValue.obj kvs) => some kvs
        | some _ => none
      match childKvs with
      | none => .err (str "type conflict at key " ++ key)
      | some kvs =>
        match unflattenRecursive kvs (seg :: rest) value with
        | .ok kvs2 => .ok (mapInsert current key (.obj kvs2))
        | .err m => .err m
        | .panicked => .panicked

/-- The entry loop of Unflatten over the flat map. -/
def unflattenLoop : List (Str × Str) → List (Str × JValue) → URes (List (Str × JValue))
  | [], acc => .ok acc
  | (k, v) :: rest, acc =>
    match unflattenRecursive acc (splitOnChar '.' k) v with
    | .ok acc2 => unflattenLoop rest acc2
    | .err m => .err m
    | .panicked => .panicked

/-- Unflatten from flattener.go. -/
def Unflatten (flat : List (Str × Str)) : URes (List (Str × JValue)) :=
  unflattenLoop flat []

/-- FlattenAndValidate from flattener.go: flatten, then run the classifier
over every entry, returning the flat map, the collected warnings and the
always-nil fatal error (the flatten walk cannot fail on JSON-decoded
input). -/
def FlattenAndValidate (data : ConfigTree) :
    List (Str × Str) × List ValidationError × Option Str :=
  let result := Flatten data
  (result, validateConfigLoop result, none)

/-! ## Diff engine (pkg/diff, Compare with strict gating) -/

/-- ChangeType from diff.go. -/
inductive ChangeType where
  | add
  | update
  | delete
deriving DecidableEq, Repr

/-- ConfigItem from azure/client.go. -/
structure ConfigItem where
  Key : Str
  Value : Str
  Label : Str
  Tags : List (Str × Str)
deriving DecidableEq, Repr

/-- Change from diff.go; absent fields keep their zero values. -/
structure Change where
  Typ : ChangeType
  Key : Str
  OldValue : Str
  NewValue : Str
  Label : Str
  Tags : List (Str × Str)
deriving DecidableEq, Repr

/-- The remote lookup map built by Compare: `remoteMap[item.Key] = item`. -/
def buildRemoteMap (remote : List ConfigItem) : List (Str × ConfigItem) :=
  remote.foldl (fun m item => mapInsert m item.Key item) []

/-- The Update change Compare builds for a changed key. -/
def mkUpdate (key : Str) (remoteItem : ConfigItem) (localValue : Str) : Change :=
  ⟨.update, key, remoteItem.Value, localValue, remoteItem.Label, remoteItem.Tags⟩

/-- The Add change Compare builds for a new key. -/
def mkAdd (key localValue : Str) : Change :=
  ⟨.add, key, [], localValue, [], []⟩

/-- The Delete change Compare builds for a remote-only key. -/
def mkDelete (remoteItem : ConfigItem) : Change :=
  ⟨.delete, remoteItem.Key, remoteItem.Value, [], remoteItem.Label, remoteItem.Tags⟩

/-- The per-local-key loop of Compare: an existing key is compared by value
and consumed from the remote map; a missing key becomes an Add.  Returns the
accumulated changes and the remaining remote map. -/
def compareLoop : List (Str × Str) → List (Str × ConfigItem) →
    List Change × List (Str × ConfigItem)
  | [], rm => ([], rm)
  | (key, localValue) :: rest, rm =>
    match mapLookup rm key with
    | some remoteItem =>
      let tail := compareLoop rest (mapErase rm key)
      (if remoteItem.Value ≠ localValue then mkUpdate key remoteItem localValue :: tail.1
       else tail.1, tail.2)
    | none =>
      let tail := compareLoop rest rm
      (mkAdd key localValue :: tail.1, tail.2)

/-- The key order used by sort.Slice in Compare (ascending string order). -/
def changeLe (a b : Change) : Bool := decide (a.Key ≤ b.Key)

/-- Compare from diff.go (the strict variant): classify every local key,
turn leftover remote entries into Delete changes only in strict mode, and
sort everything by key. -/
def Compare (localMap : List (Str × Str)) (remote : List ConfigItem) (strict : Bool) :
    List Change :=
  let s := compareLoop localMap (buildRemoteMap remote)
  let deletions := if strict then s.2.map (fun e => mkDelete e.2) else []
  (s.1 ++ deletions).mergeSort changeLe

/-! ## Reconciliation retry (pkg/sync/engine.go) -/

/-- ChangeOperation from azure/client.go. -/
structure ChangeOperation where
  Operation : Str
  Key : Str
  Value : Str
  Label : Str
  Tags : List (Str × Str)
deriving DecidableEq, Repr

/-- The external world of a reconciliation run: whether the store call for a
key fails on a given attempt of the batch, and whether the cancellation
signal fires during the wait that follows a given attempt. -/
structure StoreEnv where
  callFails : Nat → Str → Bool
  cancelDuringWait : Nat → Bool

/-- client.ApplyChanges: issue one store call per operation sequentially,
stopping at the first failure; returns the keys issued (in order) and the
wrapped error of the failing call, if any. -/
def clientApplyChanges (env : StoreEnv) (attempt : Nat) :
    List ChangeOperation → List Str × Option Str
  | [] => ([], none)
  | op :: rest =>
    if env.callFails attempt op.Key then
      ([op.Key],
       some ((if op.Operation = str "delete" then str "failed to delete setting "
              else str "failed to set setting ") ++ op.Key))
    else
      let tail := clientApplyChanges env attempt rest
      (op.Key :: tail.1, tail.2)

/-- Engine.NewEngine sets maxRetries to 3. -/
def engineMaxRetries : Nat := 3

/-- Engine.NewEngine sets baseDelay to one second (in nanoseconds, as a Go
time.Duration). -/
def engineBaseDelay : Nat := 1000000000

/-- Outcome of applyWithRetry. -/
inductive RetryOutcome where
  | success
  | canceled (e : Str)
  | exhausted (e : Str)
deriving DecidableEq, Repr

/-- A reconciliation run: every store call issued (attempt number and key),
every completed backoff wait (its duration), and the outcome. -/
structure RetryRun where
  calls : List (Nat × Str)
  waits : List Nat
  outcome : RetryOutcome
deriving DecidableEq, Repr

/-- The retry loop of applyWithRetry from attempt number `attempt` with
`countdown` further attempts allowed after this one (the loop invariant is
countdown = maxRetries - attempt): run the batch; on success stop; on the
last attempt wrap the last error; otherwise wait (attempt+1) * baseDelay,
aborting with the context error if cancellation fires during the wait. -/
def applyWithRetryAux (env : StoreEnv) (ops : List ChangeOperation) :
    Nat → Nat → RetryRun
  | attempt, 0 =>
    let r := clientApplyChanges env attempt ops
    let calls := r.1.map (fun k => (attempt, k))
    match r.2 with
    | none => ⟨calls, [], .success⟩
    | some e =>
      ⟨calls, [],
       .exhausted (str "failed after " ++ (toString (engineMaxRetries + 1)).data ++
                   str " attempts: " ++ e)⟩
  | attempt, countdown + 1 =>
    let r := clientApplyChanges env attempt ops
    let calls := r.1.map (fun k => (attempt, k))
    match r.2 with
    | none => ⟨calls, [], .success⟩
    | some _ =>
      if env.cancelDuringWait attempt then
        ⟨calls, [], .canceled (str "context canceled")⟩
      else
        let rest := applyWithRetryAux env ops (attempt + 1) countdown
        ⟨calls ++ rest.calls, (attempt + 1) * engineBaseDelay :: rest.waits, rest.outcome⟩

/-- applyWithRetry from sync/engine.go: attempts 0 through maxRetries. -/
def applyWithRetry (env : StoreEnv) (ops : List ChangeOperation) : RetryRun :=
  applyWithRetryAux env ops 0 engineMaxRetries

/-- Modelled from the spec: the retry policy the specification describes,
in which EACH INDIVIDUAL store call (not the batch) is wrapped in its own
retry loop of up to maxRetries additional attempts, moving to the next
operation once a call succeeds and aborting the whole reconciliation when
one operation exhausts its budget.  This definition exists only to be
compared against the code's applyWithRetry. -/
def specPerCallRetry (env : StoreEnv) : List ChangeOperation → List (Nat × Str) × Bool
  | [] => ([], true)
  | op :: rest =>
    let attempts := (List.range (engineMaxRetries + 1)).takeWhile
      (fun a => env.callFails a op.Key)
    if attempts.length = engineMaxRetries + 1 then
      ((List.range (engineMaxRetries + 1)).map (fun a => (a, op.Key)), false)
    else
      let tail := specPerCallRetry env rest
      ((List.range (attempts.length + 1)).map (fun a => (a, op.Key)) ++ tail.1, tail.2)

/-! ## Key Vault wire encoding (pkg/azure/client.go) -/

/-- isKeyVaultReference from azure/client.go. -/
def isKeyVaultReference (value : Str) : Bool :=
  (goHasPrefix value kvMarker ∧ goHasSuffix value (str ")")) ∨
  (goHasPrefix value httpsMarker ∧ goContains value vaultHostMarker)

/-- The Key Vault reference content type constant. -/
def kvContentType : Str := str "application/vnd.microsoft.appconfig.keyvaultref+json;charset=utf-8"

/-- detectContentType from azure/client.go. -/
def detectContentType (value : Str) : Str :=
  if isKeyVaultReference value then kvContentType else str "text/plain"

/-- The lower-case hexadecimal digit for a value below 16. -/
def hexDigitChar (n : Nat) : Char :=
  if n < 10 then Char.ofNat (48 + n) else Char.ofNat (97 + (n - 10))

/-- One character of Go encoding/json string escaping (with the default
HTML escaping of '<', '>' and '&'). -/
def jsonEscapeChar (c : Char) : Str :=
  if c = '"' then ['\\', '"']
  else if c = '\\' then ['\\', '\\']
  else if c = '\n' then ['\\', 'n']
  else if c = '\r' then ['\\', 'r']
  else if c = '\t' then ['\\', 't']
  else if c.toNat < 0x20 then
    ['\\', 'u', '0', '0', hexDigitChar (c.toNat / 16), hexDigitChar (c.toNat % 16)]
  else if c = '<' then ['\\', 'u', '0', '0', '3', 'c']
  else if c = '>' then ['\\', 'u', '0', '0', '3', 'e']
  else if c = '&' then ['\\', 'u', '0', '0', '2', '6']
  else if c.toNat = 0x2028 then ['\\', 'u', '2', '0', '2', '8']
  else if c.toNat = 0x2029 then ['\\', 'u', '2', '0', '2', '9']
  else [c]

/-- Go encoding/json string escaping. -/
def jsonEscape (s : Str) : Str := (s.map jsonEscapeChar).flatten

/-- json.Marshal of the one-entry map {"uri": uri} built by
formatKeyVaultReference (marshalling a map of strings cannot fail). -/
def jsonMarshalUriObj (uri : Str) : Str :=
  str "\x7b\"uri\":\"" ++ jsonEscape uri ++ str "\"\x7d"

/-- The URI selected by formatKeyVaultReference: the SecretUri parameter of a
@Microsoft.KeyVault(...) value (empty when absent), or the value itself. -/
def extractUri (value : Str) : Str :=
  if goHasPrefix value kvMarker ∧ goHasSuffix value (str ")") then
    match mapLookup (parseKVParams ((value.dropLast).drop kvMarker.length)) (str "SecretUri") with
    | some u => u
    | none => []
  else value

/-- formatKeyVaultReference from azure/client.go: re-encode a reference as
the JSON object {"uri": ...}. -/
def formatKeyVaultReference (value : Str) : Str :=
  jsonMarshalUriObj (extractUri value)

/-- formatValueForStorage from azure/client.go. -/
def formatValueForStorage (value contentType : Str) : Str :=
  if contentType = kvContentType then formatKeyVaultReference value else value

/-- The canonical textual form @Microsoft.KeyVault(SecretUri=uri). -/
def kvWrap (uri : Str) : Str := kvMarker ++ str "SecretUri=" ++ uri ++ str ")"

/-- Expect one token character after optional whitespace. -/
def expectChar (c : Char) (s : Str) : Option Str :=
  match skipWs s with
  | x :: r => if x = c then some r else none
  | [] => none

/-- Decode a JSON object with exactly one string-valued field — the shape
json.Unmarshal meets on values written by formatKeyVaultReference (other
object shapes are treated as undecodable; normalizeRetrievedValue then falls
through exactly as Go does when the "uri" assertion fails). -/
def jsonDecodeStringField (s : Str) : Option (Str × Str) :=
  (expectChar '\x7b' s).bind fun r1 =>
  (expectChar '"' r1).bind fun r2 =>
  (parseJStringBody r2).bind fun kp =>
  (expectChar ':' kp.2).bind fun r4 =>
  (expectChar '"' r4).bind fun r5 =>
  (parseJStringBody r5).bind fun vp =>
  (expectChar '\x7d' vp.2).bind fun r7 =>
  if skipWs r7 = [] then some (kp.1, vp.1) else none

/-- The non-JSON checks of normalizeRetrievedValue: a legacy
@Microsoft.KeyVault( value is returned unchanged, a bare https vault URI is
wrapped in the canonical form, anything else is returned as-is. -/
def normalizeFallback (value : Str) : Str :=
  if goHasPrefix value kvMarker then value
  else if goHasPrefix value httpsMarker ∧ goContains value vaultHostMarker then kvWrap value
  else value

/-- normalizeRetrievedValue from azure/client.go: the JSON {"uri": ...}
shape, the legacy @Microsoft.KeyVault(...) shape and the bare vault-URI
shape are all brought to the canonical textual form; everything else is
returned unchanged. -/
def normalizeRetrievedValue (value : Str) : Str :=
  if goHasPrefix value (str "\x7b") ∧ goHasSuffix value (str "\x7d") then
    match jsonDecodeStringField value with
    | some (k, uri) =>
      if k = str "uri" ∧ goContains uri vaultHostMarker then kvWrap uri
      else normalizeFallback value
    | none => normalizeFallback value
  else normalizeFallback value

/-! ## Derived definitions used by the statements -/

/-- Whether a ConfigTree node is the JSON null. -/
def isNullTree : ConfigTree → Bool
  | .null => true
  | _ => false

/-- The change Compare derives for one local entry against the remote map:
an equal value yields nothing, a different value an Update, a missing key an
Add. -/
def classifyChange (rm : List (Str × ConfigItem)) (key localValue : Str) : Option Change :=
  match mapLookup rm key with
  | some remoteItem =>
    if remoteItem.Value ≠ localValue then some (mkUpdate key remoteItem localValue) else none
  | none => some (mkAdd key localValue)

/-- The store calls of one batch attempt, tagged with the attempt number. -/
def batchCalls (env : StoreEnv) (ops : List ChangeOperation) (attempt : Nat) : List (Nat × Str) :=
  (clientApplyChanges env attempt ops).1.map (fun k => (attempt, k))

/-- The error of one batch attempt, if any. -/
def batchErr (env : StoreEnv) (ops : List ChangeOperation) (attempt : Nat) : Option Str :=
  (clientApplyChanges env attempt ops).2

/-! ## Helper lemmas -/

theorem mapLookup_cons {α : Type} (k0 : Str) (v0 : α) (rest : List (Str × α)) (k : Str) :
    mapLookup ((k0, v0) :: rest) k = if k0 = k then some v0 else mapLookup rest k := rfl

theorem mapErase_cons {α : Type} (k0 : Str) (v0 : α) (rest : List (Str × α)) (k : Str) :
    mapErase ((k0, v0) :: rest) k = if k0 = k then rest else (k0, v0) :: mapErase rest k := rfl

theorem mapInsert_cons {α : Type} (k0 : Str) (v0 : α) (rest : List (Str × α)) (k : Str) (v : α) :
    mapInsert ((k0, v0) :: rest) k v =
      if k0 = k then (k, v) :: rest else (k0, v0) :: mapInsert rest k v := rfl

theorem mapLookup_none_iff {α : Type} (m : List (Str × α)) (k : Str) :
    mapLookup m k = none ↔ k ∉ m.map Prod.fst := by
  induction m with
  | nil =>
    refine ⟨fun _ h => ?_, fun _ => rfl⟩
    rw [List.map_nil] at h
    exact (List.not_mem_nil k) h
  | cons e rest ih =>
    obtain ⟨k0, v0⟩ := e
    rw [mapLookup_cons, List.map_cons, List.mem_cons, not_or]
    by_cases h0 : k0 = k
    · rw [if_pos h0]
      exact ⟨fun h => Option.noConfusion h, fun h => (h.1 h0.symm).elim⟩
    · rw [if_neg h0, ih]
      have : ¬ k = k0 := fun h => h0 h.symm
      tauto

theorem mapLookup_mem {α : Type} {m : List (Str × α)} {k : Str} {v : α}
    (h : mapLookup m k = some v) : (k, v) ∈ m := by
  induction m with
  | nil => exact Option.noConfusion h
  | cons e rest ih =>
    obtain ⟨k0, v0⟩ := e
    rw [mapLookup_cons] at h
    by_cases h0 : k0 = k
    · rw [if_pos h0] at h
      rw [List.mem_cons]
      exact Or.inl (by rw [h0, Option.some_inj.mp h])
    · rw [if_neg h0] at h
      exact List.mem_cons_of_mem _ (ih h)

theorem mapErase_lookup_ne {α : Type} (m : List (Str × α)) (k k' : Str) (h : k' ≠ k) :
    mapLookup (mapErase m k) k' = mapLookup m k' := by
  induction m with
  | nil => rfl
  | cons e rest ih =>
    obtain ⟨k0, v0⟩ := e
    rw [mapErase_cons]
    by_cases h0 : k0 = k
    · rw [if_pos h0, mapLookup_cons, if_neg (fun hh : k0 = k' => h (hh ▸ h0 ▸ rfl))]
    · rw [if_neg h0, mapLookup_cons, mapLookup_cons, ih]

theorem mapErase_lookup_self {α : Type} (m : List (Str × α)) (k : Str)
    (hnd : (m.map Prod.fst).Nodup) : mapLookup (mapErase m k) k = none := by
  induction m with
  | nil => rfl
  | cons e rest ih =>
    obtain ⟨k0, v0⟩ := e
    rw [List.map_cons, List.nodup_cons] at hnd
    rw [mapErase_cons]
    by_cases h0 : k0 = k
    · rw [if_pos h0, mapLookup_none_iff]
      rw [h0] at hnd
      exact hnd.1
    · rw [if_neg h0, mapLookup_cons, if_neg h0]
      exact ih hnd.2

theorem mapErase_of_lookup_none {α : Type} (m : List (Str × α)) (k : Str)
    (h : mapLookup m k = none) : mapErase m k = m := by
  induction m with
  | nil => rfl
  | cons e rest ih =>
    obtain ⟨k0, v0⟩ := e
    rw [mapLookup_cons] at h
    by_cases h0 : k0 = k
    · rw [if_pos h0] at h
      exact absurd h (by simp)
    · rw [if_neg h0] at h
      rw [mapErase_cons, if_neg h0, ih h]

theorem mapErase_subset {α : Type} (m : List (Str × α)) (k : Str) :
    ∀ e ∈ mapErase m k, e ∈ m := by
  induction m with
  | nil => intro e he; exact absurd he (List.not_mem_nil e)
  | cons e0 rest ih =>
    obtain ⟨k0, v0⟩ := e0
    intro e he
    rw [mapErase_cons] at he
    by_cases h0 : k0 = k
    · rw [if_pos h0] at he
      exact List.mem_cons_of_mem _ he
    · rw [if_neg h0] at he
      rcases List.mem_cons.mp he with h | h
      · exact List.mem_cons.mpr (Or.inl h)
      · exact List.mem_cons_of_mem _ (ih e h)

theorem mapErase_nodup {α : Type} (m : List (Str × α)) (k : Str)
    (hnd : (m.map Prod.fst).Nodup) : ((mapErase m k).map Prod.fst).Nodup := by
  induction m with
  | nil => exact hnd
  | cons e rest ih =>
    obtain ⟨k0, v0⟩ := e
    rw [List.map_cons, List.nodup_cons] at hnd
    rw [mapErase_cons]
    by_cases h0 : k0 = k
    · rw [if_pos h0]
      exact hnd.2
    · rw [if_neg h0, List.map_cons, List.nodup_cons]
      refine ⟨?_, ih hnd.2⟩
      intro hc
      obtain ⟨e2, he2, hfst⟩ := List.mem_map.mp hc
      exact hnd.1 (hfst ▸ List.mem_map_of_mem Prod.fst (mapErase_subset rest k e2 he2))

theorem mapInsert_lookup {α : Type} (m : List (Str × α)) (k k' : Str) (v : α) :
    mapLookup (mapInsert m k v) k' = if k' = k then some v else mapLookup m k' := by
  induction m with
  | nil =>
    rw [show mapInsert ([] : List (Str × α)) k v = [(k, v)] from rfl, mapLookup_cons]
    by_cases h : k' = k
    · rw [if_pos (h ▸ rfl), if_pos h]
    · rw [if_neg (fun hh : k = k' => h hh.symm), if_neg h]
  | cons e rest ih =>
    obtain ⟨k0, v0⟩ := e
    rw [mapInsert_cons]
    by_cases h0 : k0 = k
    · rw [if_pos h0, mapLookup_cons, mapLookup_cons]
      by_cases h1 : k' = k
      · rw [if_pos (h1 ▸ rfl), if_pos h1]
      · rw [if_neg (fun hh : k = k' => h1 hh.symm), if_neg h1,
            if_neg (fun hh : k0 = k' => h1 (hh ▸ h0 ▸ rfl))]
    · rw [if_neg h0, mapLookup_cons, mapLookup_cons, ih]
      by_cases h1 : k0 = k'
      · rw [if_pos h1, if_pos h1, if_neg (fun hh : k' = k => h0 (h1.trans hh))]
      · rw [if_neg h1, if_neg h1]

theorem mapInsert_keys_sub {α : Type} (m : List (Str × α)) (k : Str) (v : α) :
    ∀ e ∈ mapInsert m k v, e.1 = k ∨ e ∈ m := by
  induction m with
  | nil =>
    intro e he
    rw [show mapInsert ([] : List (Str × α)) k v = [(k, v)] from rfl] at he
    rcases List.mem_cons.mp he with h | h
    · exact Or.inl (by rw [h])
    · exact absurd h (by simp)
  | cons e0 rest ih =>
    obtain ⟨k0, v0⟩ := e0
    intro e he
    rw [mapInsert_cons] at he
    by_cases h0 : k0 = k
    · rw [if_pos h0] at he
      rcases List.mem_cons.mp he with h | h
      · exact Or.inl (by rw [h])
      · exact Or.inr (List.mem_cons_of_mem _ h)
    · rw [if_neg h0] at he
      rcases List.mem_cons.mp he with h | h
      · exact Or.inr (List.mem_cons.mpr (Or.inl h))
      · rcases ih e h with h1 | h1
        · exact Or.inl h1
        · exact Or.inr (List.mem_cons_of_mem _ h1)

theorem mapInsert_nodup {α : Type} (m : List (Str × α)) (k : Str) (v : α)
    (hnd : (m.map Prod.fst).Nodup) : ((mapInsert m k v).map Prod.fst).Nodup := by
  induction m with
  | nil => simp [show mapInsert ([] : List (Str × α)) k v = [(k, v)] from rfl]
  | cons e rest ih =>
    obtain ⟨k0, v0⟩ := e
    rw [List.map_cons, List.nodup_cons] at hnd
    rw [mapInsert_cons]
    by_cases h0 : k0 = k
    · rw [if_pos h0, List.map_cons, List.nodup_cons]
      refine ⟨?_, hnd.2⟩
      rw [← h0]
      exact hnd.1
    · rw [if_neg h0, List.map_cons, List.nodup_cons]
      refine ⟨?_, ih hnd.2⟩
      intro hc
      obtain ⟨e2, he2, hfst⟩ := List.mem_map.mp hc
      rcases mapInsert_keys_sub rest k v e2 he2 with h1 | h1
      · exact h0 (hfst.symm.trans h1)
      · exact hnd.1 (hfst ▸ List.mem_map_of_mem Prod.fst h1)

theorem buildRemoteMap_aux_nodup (remote : List ConfigItem) :
    ∀ m : List (Str × ConfigItem), (m.map Prod.fst).Nodup →
      ((remote.foldl (fun m item => mapInsert m item.Key item) m).map Prod.fst).Nodup := by
  induction remote with
  | nil => intro m h; exact h
  | cons item rest ih =>
    intro m h
    exact ih _ (mapInsert_nodup m item.Key item h)

theorem buildRemoteMap_nodup (remote : List ConfigItem) :
    ((buildRemoteMap remote).map Prod.fst).Nodup :=
  buildRemoteMap_aux_nodup remote [] (by simp)

theorem buildRemoteMap_aux_keyed (remote : List ConfigItem) :
    ∀ m : List (Str × ConfigItem), (∀ e ∈ m, e.2.Key = e.1) →
      ∀ e ∈ remote.foldl (fun m item => mapInsert m item.Key item) m, e.2.Key = e.1 := by
  induction remote with
  | nil => intro m h; exact h
  | cons item rest ih =>
    intro m h
    refine ih _ ?_
    intro e he
    rcases mapInsert_keys_sub m item.Key item e he with h1 | h1
    · -- the inserted entry has value item and key item.Key
      -- membership with e.1 = item.Key: need the value too; re-derive below
      have : ∀ e2 ∈ mapInsert m item.Key item, e2 ∈ m ∨ e2 = (item.Key, item) := by
        clear ih he h1 h e
        induction m with
        | nil =>
          intro e2 he2
          rcases List.mem_cons.mp he2 with h | h
          · exact Or.inr h
          · exact absurd h (List.not_mem_nil e2)
        | cons e0 r0 ih0 =>
          obtain ⟨k0, v0⟩ := e0
          intro e2 he2
          rw [mapInsert_cons] at he2
          by_cases h0 : k0 = item.Key
          · rw [if_pos h0] at he2
            rcases List.mem_cons.mp he2 with h | h
            · exact Or.inr h
            · exact Or.inl (List.mem_cons_of_mem _ h)
          · rw [if_neg h0] at he2
            rcases List.mem_cons.mp he2 with h | h
            · exact Or.inl (List.mem_cons.mpr (Or.inl h))
            · rcases ih0 e2 h with h1 | h1
              · exact Or.inl (List.mem_cons_of_mem _ h1)
              · exact Or.inr h1
      rcases this e he with h2 | h2
      · exact h e h2
      · rw [h2]
    · exact h e h1

theorem buildRemoteMap_keyed (remote : List ConfigItem) :
    ∀ e ∈ buildRemoteMap remote, e.2.Key = e.1 := by
  refine buildRemoteMap_aux_keyed remote [] ?_
  intro e he
  exact absurd he (List.not_mem_nil e)

theorem classifyChange_key (rm : List (Str × ConfigItem)) (k v : Str) (c : Change)
    (h : classifyChange rm k v = some c) : c.Key = k := by
  unfold classifyChange at h
  cases hl : mapLookup rm k with
  | some item =>
    rw [hl] at h
    dsimp only at h
    by_cases hv : item.Value ≠ v
    · rw [if_pos hv] at h
      rw [← Option.some_inj.mp h]
      rfl
    · rw [if_neg hv] at h
      exact Option.noConfusion h
  | none =>
    rw [hl] at h
    dsimp only at h
    rw [← Option.some_inj.mp h]
    rfl

theorem compareLoop_changes (lcl : List (Str × Str)) :
    ∀ rm : List (Str × ConfigItem), (lcl.map Prod.fst).Nodup →
      (compareLoop lcl rm).1 = lcl.filterMap (fun e => classifyChange rm e.1 e.2) := by
  induction lcl with
  | nil => intro rm _; rfl
  | cons e rest ih =>
    obtain ⟨k, v⟩ := e
    intro rm hnd
    rw [List.map_cons, List.nodup_cons] at hnd
    have hcongr : ∀ rm' : List (Str × ConfigItem),
        (∀ k' ∈ rest.map Prod.fst, mapLookup rm' k' = mapLookup rm k') →
        rest.filterMap (fun e => classifyChange rm' e.1 e.2) =
          rest.filterMap (fun e => classifyChange rm e.1 e.2) := by
      intro rm' h
      refine List.filterMap_congr ?_
      intro e he
      unfold classifyChange
      rw [h e.1 (List.mem_map_of_mem Prod.fst he)]
    show (match mapLookup rm k with
      | some remoteItem =>
        let tail := compareLoop rest (mapErase rm k)
        (if remoteItem.Value ≠ v then mkUpdate k remoteItem v :: tail.1 else tail.1, tail.2)
      | none =>
        let tail := compareLoop rest rm
        (mkAdd k v :: tail.1, tail.2)).1 =
      List.filterMap (fun e => classifyChange rm e.1 e.2) ((k, v) :: rest)
    cases hl : mapLookup rm k with
    | some item =>
      have htail : (compareLoop rest (mapErase rm k)).1 =
          rest.filterMap (fun e => classifyChange rm e.1 e.2) := by
        rw [ih (mapErase rm k) hnd.2]
        exact hcongr (mapErase rm k)
          (fun k' hk' => mapErase_lookup_ne rm k k' (fun he => hnd.1 (he ▸ hk')))
      rw [List.filterMap_cons]
      show (if item.Value ≠ v then mkUpdate k item v :: (compareLoop rest (mapErase rm k)).1
            else (compareLoop rest (mapErase rm k)).1) = _
      unfold classifyChange
      rw [hl]
      dsimp only
      by_cases hv : item.Value ≠ v
      · rw [if_pos hv, if_pos hv, htail]
        rfl
      · rw [if_neg hv, if_neg hv, htail]
        rfl
    | none =>
      rw [List.filterMap_cons]
      show mkAdd k v :: (compareLoop rest rm).1 = _
      unfold classifyChange
      rw [hl, ih rm hnd.2]
      rfl

theorem compareLoop_rm (lcl : List (Str × Str)) :
    ∀ rm : List (Str × ConfigItem),
      (compareLoop lcl rm).2 = lcl.foldl (fun m e => mapErase m e.1) rm := by
  induction lcl with
  | nil => intro rm; rfl
  | cons e rest ih =>
    obtain ⟨k, v⟩ := e
    intro rm
    show (match mapLookup rm k with
      | some remoteItem =>
        let tail := compareLoop rest (mapErase rm k)
        (if remoteItem.Value ≠ v then mkUpdate k remoteItem v :: tail.1 else tail.1, tail.2)
      | none =>
        let tail := compareLoop rest rm
        (mkAdd k v :: tail.1, tail.2)).2 = _
    cases hl : mapLookup rm k with
    | some item =>
      show (compareLoop rest (mapErase rm k)).2 = _
      rw [ih (mapErase rm k)]
      rfl
    | none =>
      show (compareLoop rest rm).2 = _
      rw [ih rm, List.foldl_cons, mapErase_of_lookup_none rm k hl]

theorem foldl_erase_nodup (lcl : List (Str × Str)) :
    ∀ rm : List (Str × ConfigItem), (rm.map Prod.fst).Nodup →
      ((lcl.foldl (fun m e => mapErase m e.1) rm).map Prod.fst).Nodup := by
  induction lcl with
  | nil => intro rm h; exact h
  | cons e rest ih =>
    intro rm h
    exact ih _ (mapErase_nodup rm e.1 h)

theorem foldl_erase_keyed (lcl : List (Str × Str)) :
    ∀ rm : List (Str × ConfigItem), (∀ e ∈ rm, e.2.Key = e.1) →
      ∀ e ∈ lcl.foldl (fun m e => mapErase m e.1) rm, e.2.Key = e.1 := by
  induction lcl with
  | nil => intro rm h; exact h
  | cons e0 rest ih =>
    intro rm h
    exact ih _ (fun e he => h e (mapErase_subset rm e0.1 e he))

theorem lookup_foldl_erase (lcl : List (Str × Str)) :
    ∀ (rm : List (Str × ConfigItem)) (k : Str), (rm.map Prod.fst).Nodup →
      mapLookup (lcl.foldl (fun m e => mapErase m e.1) rm) k =
        if k ∈ lcl.map Prod.fst then none else mapLookup rm k := by
  induction lcl with
  | nil =>
    intro rm k _
    rw [List.foldl_nil, List.map_nil, if_neg (List.not_mem_nil k)]
  | cons e rest ih =>
    obtain ⟨k0, v0⟩ := e
    intro rm k hnd
    rw [List.foldl_cons, ih (mapErase rm k0) k (mapErase_nodup rm k0 hnd)]
    by_cases h1 : k ∈ rest.map Prod.fst
    · rw [if_pos h1, if_pos (by rw [List.map_cons]; exact List.mem_cons_of_mem _ h1)]
    · rw [if_neg h1]
      by_cases h2 : k = k0
      · rw [h2, mapErase_lookup_self rm k0 hnd,
            if_pos (by rw [List.map_cons]; exact List.mem_cons.mpr (Or.inl rfl))]
      · rw [mapErase_lookup_ne rm k0 k h2,
            if_neg (by rw [List.map_cons, List.mem_cons]; rintro (h | h); exact h2 h; exact h1 h)]

theorem filter_classify_nil (lcl : List (Str × Str)) (rm : List (Str × ConfigItem)) (k : Str)
    (h : k ∉ lcl.map Prod.fst) :
    (lcl.filterMap (fun e => classifyChange rm e.1 e.2)).filter
      (fun c => decide (c.Key = k)) = [] := by
  induction lcl with
  | nil => rfl
  | cons e rest ih =>
    obtain ⟨k0, v0⟩ := e
    rw [List.map_cons, List.mem_cons, not_or] at h
    rw [List.filterMap_cons]
    cases hc : classifyChange rm k0 v0 with
    | some c =>
      have hkey : c.Key = k0 := classifyChange_key rm k0 v0 c hc
      rw [List.filter_cons_of_neg, ih h.2]
      rw [hkey]
      simp only [decide_eq_true_eq]
      exact fun hk => h.1 hk.symm
    | none => exact ih h.2

theorem filter_classify (lcl : List (Str × Str)) (rm : List (Str × ConfigItem)) (k : Str)
    (hnd : (lcl.map Prod.fst).Nodup) :
    (lcl.filterMap (fun e => classifyChange rm e.1 e.2)).filter
      (fun c => decide (c.Key = k)) =
      (match mapLookup lcl k with
       | some v => (classifyChange rm k v).toList
       | none => []) := by
  induction lcl with
  | nil => rfl
  | cons e rest ih =>
    obtain ⟨k0, v0⟩ := e
    rw [List.map_cons, List.nodup_cons] at hnd
    rw [List.filterMap_cons, mapLookup_cons]
    by_cases h0 : k0 = k
    · subst h0
      rw [if_pos rfl]
      have hrest := filter_classify_nil rest rm k0 hnd.1
      cases hc : classifyChange rm k0 v0 with
      | some c =>
        have hkey : c.Key = k0 := classifyChange_key rm k0 v0 c hc
        show List.filter _ (c :: _) = (classifyChange rm k0 v0).toList
        rw [List.filter_cons_of_pos (by rw [hkey]; simp), hrest, hc]
        rfl
      | none =>
        show List.filter _ _ = (classifyChange rm k0 v0).toList
        rw [hc]
        exact hrest
    · rw [if_neg h0]
      cases hc : classifyChange rm k0 v0 with
      | some c =>
        have hkey : c.Key = k0 := classifyChange_key rm k0 v0 c hc
        show List.filter _ (c :: _) = _
        rw [List.filter_cons_of_neg (by rw [hkey]; simp only [decide_eq_true_eq]; exact h0)]
        exact ih hnd.2
      | none => exact ih hnd.2

theorem filter_deletes_nil (rm : List (Str × ConfigItem)) (k : Str)
    (hkeyed : ∀ e ∈ rm, e.2.Key = e.1) (h : k ∉ rm.map Prod.fst) :
    (rm.map (fun e => mkDelete e.2)).filter (fun c => decide (c.Key = k)) = [] := by
  induction rm with
  | nil => rfl
  | cons e rest ih =>
    obtain ⟨k0, item⟩ := e
    rw [List.map_cons, List.mem_cons, not_or] at h
    rw [List.map_cons, List.filter_cons_of_neg, ih (fun e he => hkeyed e (List.mem_cons_of_mem _ he)) h.2]
    have : (mkDelete item).Key = k0 := hkeyed (k0, item) (List.mem_cons.mpr (Or.inl rfl))
    rw [this]
    simp only [decide_eq_true_eq]
    exact fun hk => h.1 hk.symm

theorem filter_deletes (rm : List (Str × ConfigItem)) (k : Str)
    (hkeyed : ∀ e ∈ rm, e.2.Key = e.1) (hnd : (rm.map Prod.fst).Nodup) :
    (rm.map (fun e => mkDelete e.2)).filter (fun c => decide (c.Key = k)) =
      (match mapLookup rm k with
       | some item => [mkDelete item]
       | none => []) := by
  induction rm with
  | nil => rfl
  | cons e rest ih =>
    obtain ⟨k0, item⟩ := e
    rw [List.map_cons, List.nodup_cons] at hnd
    have hk0 : (mkDelete item).Key = k0 := hkeyed (k0, item) (List.mem_cons.mpr (Or.inl rfl))
    rw [List.map_cons, mapLookup_cons]
    by_cases h0 : k0 = k
    · subst h0
      rw [if_pos rfl, List.filter_cons_of_pos (by rw [hk0]; simp),
          filter_deletes_nil rest k0 (fun e he => hkeyed e (List.mem_cons_of_mem _ he)) hnd.1]
    · rw [if_neg h0, List.filter_cons_of_neg (by rw [hk0]; simp only [decide_eq_true_eq]; exact h0)]
      exact ih (fun e he => hkeyed e (List.mem_cons_of_mem _ he)) hnd.2

theorem changeLe_trans (a b c : Change) (h1 : changeLe a b = true) (h2 : changeLe b c = true) :
    changeLe a c = true := by
  unfold changeLe at *
  rw [decide_eq_true_eq] at *
  exact le_trans h1 h2

theorem changeLe_total (a b : Change) : (changeLe a b || changeLe b a) = true := by
  unfold changeLe
  rcases le_total a.Key b.Key with h | h
  · rw [decide_eq_true h]
    rfl
  · rw [decide_eq_true h, Bool.or_true]

theorem Compare_filter (localMap : List (Str × Str)) (remote : List ConfigItem)
    (strict : Bool) (k : Str) (hnd : (localMap.map Prod.fst).Nodup) :
    (Compare localMap remote strict).filter (fun c => decide (c.Key = k)) =
      (match mapLookup localMap k with
       | some v => (classifyChange (buildRemoteMap remote) k v).toList
       | none =>
        (if strict then
          (match mapLookup (buildRemoteMap remote) k with
           | some item => [mkDelete item]
           | none => [])
         else [])) := by
  have hkeyed := foldl_erase_keyed localMap (buildRemoteMap remote) (buildRemoteMap_keyed remote)
  have hnd2 := foldl_erase_nodup localMap (buildRemoteMap remote) (buildRemoteMap_nodup remote)
  have hperm := (List.mergeSort_perm
    ((compareLoop localMap (buildRemoteMap remote)).1 ++
      (if strict then
        (compareLoop localMap (buildRemoteMap remote)).2.map (fun e => mkDelete e.2)
       else [])) changeLe).filter (fun c => decide (c.Key = k))
  rw [List.filter_append] at hperm
  rw [compareLoop_changes localMap (buildRemoteMap remote) hnd,
      filter_classify localMap (buildRemoteMap remote) k hnd] at hperm
  have hdel : (if strict then
        (compareLoop localMap (buildRemoteMap remote)).2.map (fun e => mkDelete e.2)
       else []).filter (fun c => decide (c.Key = k)) =
      if strict then
        (match mapLookup ((compareLoop localMap (buildRemoteMap remote)).2) k with
         | some item => [mkDelete item]
         | none => [])
      else [] := by
    cases strict with
    | true =>
      rw [if_pos rfl, if_pos rfl]
      rw [compareLoop_rm localMap (buildRemoteMap remote)]
      exact filter_deletes _ k hkeyed hnd2
    | false => rfl
  rw [hdel, compareLoop_rm localMap (buildRemoteMap remote),
      lookup_foldl_erase localMap (buildRemoteMap remote) k (buildRemoteMap_nodup remote)] at hperm
  have hcmp : Compare localMap remote strict =
      ((compareLoop localMap (buildRemoteMap remote)).1 ++
        (if strict then
          (compareLoop localMap (buildRemoteMap remote)).2.map (fun e => mkDelete e.2)
         else [])).mergeSort changeLe := rfl
  rw [hcmp, compareLoop_changes localMap (buildRemoteMap remote) hnd,
      compareLoop_rm localMap (buildRemoteMap remote)]
  cases hL : mapLookup localMap k with
  | some v =>
    have hmem : k ∈ localMap.map Prod.fst := by
      have := mapLookup_mem hL
      exact List.mem_map_of_mem Prod.fst this
    rw [hL, if_pos hmem] at hperm
    dsimp only at hperm
    rw [ite_self, List.append_nil] at hperm
    dsimp only
    cases hc : classifyChange (buildRemoteMap remote) k v with
    | some c =>
      rw [hc] at hperm
      exact List.perm_singleton.mp hperm
    | none =>
      rw [hc] at hperm
      exact hperm.eq_nil
  | none =>
    have hnmem : k ∉ localMap.map Prod.fst := (mapLookup_none_iff localMap k).mp hL
    rw [hL, if_neg hnmem] at hperm
    dsimp only at hperm
    rw [List.nil_append] at hperm
    dsimp only
    cases strict with
    | true =>
      rw [if_pos rfl] at hperm
      rw [if_pos rfl]
      cases hr : mapLookup (buildRemoteMap remote) k with
      | some item =>
        rw [hr] at hperm
        exact List.perm_singleton.mp hperm
      | none =>
        rw [hr] at hperm
        exact hperm.eq_nil
    | false =>
      rw [if_neg (by simp)] at hperm
      rw [if_neg (by simp)]
      exact hperm.eq_nil

/-- C2: diff classification and strict gating.  For every local flat mapping
with distinct keys, remote item list and strict flag: a local key present
remotely with an equal value produces no change; present with a different
value, exactly the Update change with old = remote value and new = local
value; absent remotely, exactly the Add change with the local value; a
remote key with no local counterpart produces exactly one Delete change when
strict is true and none when strict is false; and the returned list is
sorted by key in ascending order. -/
theorem c2_compare_classification (localMap : List (Str × Str)) (remote : List ConfigItem)
    (strict : Bool) (hnd : (localMap.map Prod.fst).Nodup) :
    (∀ k v item, mapLookup localMap k = some v →
      mapLookup (buildRemoteMap remote) k = some item →
      ((item.Value = v →
         (Compare localMap remote strict).filter (fun c => decide (c.Key = k)) = []) ∧
       (item.Value ≠ v →
         (Compare localMap remote strict).filter (fun c => decide (c.Key = k)) =
           [mkUpdate k item v]))) ∧
    (∀ k v, mapLookup localMap k = some v →
      mapLookup (buildRemoteMap remote) k = none →
      (Compare localMap remote strict).filter (fun c => decide (c.Key = k)) = [mkAdd k v]) ∧
    (∀ k item, mapLookup localMap k = none →
      mapLookup (buildRemoteMap remote) k = some item →
      (Compare localMap remote strict).filter (fun c => decide (c.Key = k)) =
        (if strict then [mkDelete item] else [])) ∧
    List.Pairwise (fun a b => a.Key ≤ b.Key) (Compare localMap remote strict) := by
  refine ⟨?_, ?_, ?_, ?_⟩
  · intro k v item hL hR
    constructor
    · intro hv
      rw [Compare_filter localMap remote strict k hnd, hL]
      dsimp only
      unfold classifyChange
      rw [hR]
      dsimp only
      rw [if_neg (by intro h; exact h hv)]
      rfl
    · intro hv
      rw [Compare_filter localMap remote strict k hnd, hL]
      dsimp only
      unfold classifyChange
      rw [hR]
      dsimp only
      rw [if_pos hv]
      rfl
  · intro k v hL hR
    rw [Compare_filter localMap remote strict k hnd, hL]
    dsimp only
    unfold classifyChange
    rw [hR]
    rfl
  · intro k item hL hR
    rw [Compare_filter localMap remote strict k hnd, hL]
    dsimp only
    rw [hR]
  · have hsorted := List.sorted_mergeSort changeLe_trans changeLe_total
      ((compareLoop localMap (buildRemoteMap remote)).1 ++
        (if strict then
          (compareLoop localMap (buildRemoteMap remote)).2.map (fun e => mkDelete e.2)
         else []))
    have : Compare localMap remote strict =
        ((compareLoop localMap (buildRemoteMap remote)).1 ++
          (if strict then
            (compareLoop localMap (buildRemoteMap remote)).2.map (fun e => mkDelete e.2)
           else [])).mergeSort changeLe := rfl
    rw [this]
    refine hsorted.imp ?_
    intro a b h
    unfold changeLe at h
    exact decide_eq_true_eq.mp h

theorem c2_compare_classification_witness :
    ((([(str "x", str "1"), (str "y", str "2")] : List (Str × Str)).map Prod.fst).Nodup ∧
      mapLookup [(str "x", str "1"), (str "y", str "2")] (str "z") = none ∧
      mapLookup (buildRemoteMap [⟨str "x", str "1", [], []⟩, ⟨str "z", str "9", [], []⟩])
        (str "z") = some ⟨str "z", str "9", [], []⟩) ∧
    (Compare [(str "x", str "1"), (str "y", str "2")]
        [⟨str "x", str "1", [], []⟩, ⟨str "z", str "9", [], []⟩] true).filter
      (fun c => decide (c.Key = str "z")) =
      [mkDelete ⟨str "z", str "9", [], []⟩] := by
  refine ⟨⟨by decide, by decide, by decide⟩, ?_⟩
  have h := (c2_compare_classification [(str "x", str "1"), (str "y", str "2")]
    [⟨str "x", str "1", [], []⟩, ⟨str "z", str "9", [], []⟩] true (by decide)).2.2.1
    (str "z") ⟨str "z", str "9", [], []⟩ (by decide) (by decide)
  rw [h]
  rfl

/-- C1: the claimed Flatten/Unflatten round-trip fails on the code.  The tree
with a list of one scalar string flattens to the single entry
features.0 = auth, but Unflatten rebuilds the list element as an empty
object and drops the value: the recursion consumes the key segment and the
index segment together and returns without ever writing the leaf, so the
round-trip preserves neither the leaf's shape nor its string value. -/
theorem c1_roundtrip_fails_on_scalar_list :
    Flatten (.obj [(str "features", .list [.string (str "auth")])]) =
      [(str "features.0", str "auth")] ∧
    Unflatten [(str "features.0", str "auth")] =
      .ok [(str "features", .arr [.obj []])] :=
  ⟨rfl, rfl⟩

/-- C7: a path segment is treated as a list index exactly when strconv.Atoi
accepts it, which includes negative integers, and a negative index makes
unflattenRecursive index the slice out of range: Unflatten panics on the
mapping a.-1.b = x instead of being total. -/
theorem c7_negative_index_panics :
    isArrayIndex (str "-1") = true ∧
    Unflatten [(str "a.-1.b", str "x")] = (.panicked : URes (List (Str × JValue))) :=
  ⟨rfl, rfl⟩

/-- C10: a null leaf contributes nothing to Flatten's output and raises no
error: flattening the null tree returns the accumulated result unchanged,
and dropping the null-valued entries of an object leaves its flattening
untouched. -/
theorem c10_null_leaves_omitted :
    (∀ (pfx : Str) (result : List (Str × Str)),
      flattenRecursive .null pfx result = result) ∧
    (∀ kvs : List (Str × ConfigTree),
      Flatten (.obj kvs) = Flatten (.obj (kvs.filter (fun kv => !isNullTree kv.2)))) := by
  constructor
  · intro pfx result
    rfl
  · intro kvs
    show flattenMapLoop kvs [] [] = flattenMapLoop (kvs.filter (fun kv => !isNullTree kv.2)) [] []
    generalize [] = pfx0
    generalize ([] : List (Str × Str)) = result0
    induction kvs generalizing result0 with
    | nil => rfl
    | cons e rest ih =>
      obtain ⟨k, v⟩ := e
      cases v with
      | null =>
        rw [List.filter_cons_of_neg (by exact Bool.false_ne_true)]
        show flattenMapLoop rest pfx0 (flattenRecursive .null (joinKeys pfx0 k) result0) =
          _
        rw [show flattenRecursive .null (joinKeys pfx0 k) result0 = result0 from rfl]
        exact ih result0
      | boolean x =>
        rw [List.filter_cons_of_pos (by rfl)]
        exact ih _
      | int n =>
        rw [List.filter_cons_of_pos (by rfl)]
        exact ih _
      | string s =>
        rw [List.filter_cons_of_pos (by rfl)]
        exact ih _
      | list xs =>
        rw [List.filter_cons_of_pos (by rfl)]
        exact ih _
      | obj kvs2 =>
        rw [List.filter_cons_of_pos (by rfl)]
        exact ih _

/-- C3 counterexample: the key feature.x matches the feature-flag heuristic
and the value maybe is in neither boolean set, yet ValidateAndParseValue
returns Regular with no error — the feature-flag parse error is swallowed by
the err == nil guard and control falls through to the Regular return, so the
claimed FeatureFlagError never reaches the caller. -/
theorem c3_invalid_flag_value_counterexample :
    isFeatureFlagKey (str "feature.x") = true ∧
    goToLower (str "maybe") ∉ truthyValues ∧
    goToLower (str "maybe") ∉ falsyValues ∧
    ValidateAndParseValue (str "feature.x") (str "maybe") =
      .ok ⟨.regular, str "maybe", .regular (str "maybe")⟩ := by
  refine ⟨by decide, by decide, by decide, rfl⟩

/-- C3 amended: for every key matching the feature-flag heuristic and every
value that matches neither secret-reference marker, a value outside the
truthy and falsy sets is classified Regular with no error (the invalid-value
error raised inside parseFeatureFlag never escapes ValidateAndParseValue). -/
theorem c3_bad_flag_value_classified_regular (key value : Str)
    (hkey : isFeatureFlagKey key = true)
    (hm1 : goHasPrefix value kvMarker = false)
    (hm2 : ¬ (goHasPrefix value httpsMarker = true ∧ goContains value vaultHostMarker = true))
    (ht : goToLower value ∉ truthyValues) (hf : goToLower value ∉ falsyValues) :
    ValidateAndParseValue key value = .ok ⟨.regular, value, .regular value⟩ := by
  unfold ValidateAndParseValue
  rw [if_neg (by rw [hm1]; exact Bool.false_ne_true)]
  rw [if_neg (by intro h; exact hm2 ⟨h.1, h.2⟩)]
  unfold parseFeatureFlag
  rw [if_pos hkey, if_neg ht, if_neg hf]

theorem c3_bad_flag_value_classified_regular_witness :
    (isFeatureFlagKey (str "enable.dark_mode") = true ∧
      goHasPrefix (str "yes!") kvMarker = false ∧
      goToLower (str "yes!") ∉ truthyValues ∧ goToLower (str "yes!") ∉ falsyValues) ∧
    ValidateAndParseValue (str "enable.dark_mode") (str "yes!") =
      .ok ⟨.regular, str "yes!", .regular (str "yes!")⟩ :=
  ⟨⟨by decide, by decide, by decide, by decide⟩,
    c3_bad_flag_value_classified_regular (str "enable.dark_mode") (str "yes!")
      (by decide) (by decide) (by decide) (by decide) (by decide)⟩

theorem goToLower_length (value : Str) : (goToLower value).length = value.length :=
  List.length_map value goToLowerChar

theorem flag_value_is_short (value : Str)
    (h : goToLower value ∈ truthyValues ∨ goToLower value ∈ falsyValues) :
    value.length ≤ 8 ∧ goToLower value ≠ str "https://" := by
  have hlen : ∀ lv : Str, lv ∈ truthyValues ∨ lv ∈ falsyValues →
      lv.length ≤ 8 ∧ lv ≠ str "https://" := by
    intro lv hlv
    rcases hlv with hlv | hlv
    · fin_cases hlv <;> exact ⟨by decide, by decide⟩
    · fin_cases hlv <;> exact ⟨by decide, by decide⟩
  obtain ⟨h1, h2⟩ := hlen (goToLower value) h
  exact ⟨by rw [← goToLower_length]; exact h1, h2⟩

theorem flag_value_no_marker (value : Str)
    (h : goToLower value ∈ truthyValues ∨ goToLower value ∈ falsyValues) :
    goHasPrefix value kvMarker = false ∧
    ¬ (goHasPrefix value httpsMarker = true ∧ goContains value vaultHostMarker = true) := by
  obtain ⟨hlen, hne⟩ := flag_value_is_short value h
  constructor
  · rw [goHasPrefix]
    rw [decide_eq_false_iff_not]
    intro hp
    have := hp.length_le
    rw [show kvMarker.length = 20 from rfl] at this
    omega
  · rintro ⟨hp, _⟩
    rw [goHasPrefix, decide_eq_true_eq] at hp
    have h8 := hp.length_le
    rw [show httpsMarker.length = 8 from rfl] at h8
    have : value = httpsMarker := (hp.eq_of_length
      (by rw [show httpsMarker.length = 8 from rfl]; omega)).symm
    rw [this] at hne
    exact hne (by decide)

/-- C8: for every key matching the feature-flag heuristic and every value
whose lower-casing lies in the truthy or falsy set, classification returns a
FeatureFlag whose Enabled bit records truthiness and whose Description is
the key with dots and underscores replaced by spaces and the result
title-cased (Go strings.Title); the witness instantiates this at
feature.new_ui / true, whose derived description is "Feature New Ui". -/
theorem c8_feature_flag_description (key value : Str)
    (hkey : isFeatureFlagKey key = true)
    (hval : goToLower value ∈ truthyValues ∨ goToLower value ∈ falsyValues) :
    ValidateAndParseValue key value =
      .ok ⟨.feature_flag, value,
           .flag ⟨goTitle (goReplaceAllChar '_' ' ' (goReplaceAllChar '.' ' ' key)),
                  decide (goToLower value ∈ truthyValues)⟩⟩ := by
  obtain ⟨hm1, hm2⟩ := flag_value_no_marker value hval
  have hkeynil : key ≠ [] := by
    intro h
    rw [h] at hkey
    exact absurd hkey (by decide)
  have hdesc : extractFeatureDescription key ≠ [] := by
    unfold extractFeatureDescription goTitle
    cases hk : goReplaceAllChar '_' ' ' (goReplaceAllChar '.' ' ' key) with
    | nil =>
      exfalso
      apply hkeynil
      have h1 := congrArg List.length hk
      rw [goReplaceAllChar, goReplaceAllChar, List.length_map, List.length_map] at h1
      exact List.eq_nil_of_length_eq_zero h1
    | cons c cs => exact fun h => List.noConfusion h
  unfold ValidateAndParseValue
  rw [if_neg (by rw [hm1]; exact Bool.false_ne_true)]
  rw [if_neg (by intro h; exact hm2 ⟨h.1, h.2⟩)]
  unfold parseFeatureFlag
  rw [if_pos hkey]
  have hff : validateFeatureFlag ⟨extractFeatureDescription key, true⟩ = none ∧
      validateFeatureFlag ⟨extractFeatureDescription key, false⟩ = none := by
    unfold validateFeatureFlag
    exact ⟨by rw [if_neg hdesc], by rw [if_neg hdesc]⟩
  by_cases ht : goToLower value ∈ truthyValues
  · rw [if_pos ht]
    dsimp only
    rw [hff.1]
    rw [decide_eq_true ht]
    rfl
  · rcases hval with h | h
    · exact absurd h ht
    · rw [if_neg ht, if_pos h]
      dsimp only
      rw [hff.2]
      rw [decide_eq_false ht]
      rfl

theorem c8_feature_flag_description_witness :
    (isFeatureFlagKey (str "feature.new_ui") = true ∧
      goToLower (str "true") ∈ truthyValues) ∧
    ValidateAndParseValue (str "feature.new_ui") (str "true") =
      .ok ⟨.feature_flag, str "true", .flag ⟨str "Feature New Ui", true⟩⟩ :=
  ⟨⟨by decide, by decide⟩, by
    have h := c8_feature_flag_description (str "feature.new_ui") (str "true")
      (by decide) (Or.inl (by decide))
    rw [h]
    rfl⟩

theorem parseKeyVaultURI_ok_name (uri : Str) (ref : KeyVaultReference)
    (h : parseKeyVaultURI uri = .ok ref) : isValidSecretName ref.SecretName = true := by
  unfold parseKeyVaultURI at h
  cases hu : goURLParse uri with
  | none => rw [hu] at h; exact Except.noConfusion h
  | some u =>
    rw [hu] at h
    dsimp only at h
    by_cases h1 : ¬ goContains u.Host vaultHostMarker = true
    · rw [if_pos h1] at h; exact Except.noConfusion h
    · rw [if_neg h1] at h
      by_cases h2 : (splitOnChar '/' (goTrimSlashes u.Path)).length < 2 ∨
          (splitOnChar '/' (goTrimSlashes u.Path)).headD [] ≠ str "secrets"
      · rw [if_pos h2] at h; exact Except.noConfusion h
      · rw [if_neg h2] at h
        by_cases h3 : ¬ isValidSecretName ((splitOnChar '/' (goTrimSlashes u.Path)).getD 1 []) = true
        · rw [if_pos h3] at h; exact Except.noConfusion h
        · rw [if_neg h3] at h
          rw [← Except.ok.inj h]
          exact not_not.mp h3

theorem parseKeyVaultReference_ok_name (value : Str) (ref : KeyVaultReference)
    (h : parseKeyVaultReference value = .ok ref) : isValidSecretName ref.SecretName = true := by
  unfold parseKeyVaultReference at h
  by_cases h1 : goHasPrefix value kvMarker = true ∧ goHasSuffix value (str ")") = true
  · rw [if_pos (by exact ⟨h1.1, h1.2⟩)] at h
    dsimp only at h
    cases hs : mapLookup (parseKVParams ((value.dropLast).drop kvMarker.length)) (str "SecretUri") with
    | none => rw [hs] at h; exact Except.noConfusion h
    | some secretURI =>
      rw [hs] at h
      exact parseKeyVaultURI_ok_name secretURI ref h
  · rw [if_neg (by intro hc; exact h1 ⟨hc.1, hc.2⟩)] at h
    by_cases h2 : goHasPrefix value httpsMarker = true ∧ goContains value vaultHostMarker = true
    · rw [if_pos (by exact ⟨h2.1, h2.2⟩)] at h
      exact parseKeyVaultURI_ok_name value ref h
    · rw [if_neg (by intro hc; exact h2 ⟨hc.1, hc.2⟩)] at h
      by_cases h3 : goHasPrefix value httpsMarker = true
      · rw [if_pos h3] at h; exact Except.noConfusion h
      · rw [if_neg h3] at h; exact Except.noConfusion h

/-- C5: once a value matches the @Microsoft.KeyVault( marker or the https://
+ vault.azure.net marker, ValidateAndParseValue either fails for that key or
returns a Key-Vault-typed SpecialValue whose reference passed full
validation (valid 1-127 character secret name, https:// vault URL containing
the vault host, non-empty name); such a value is never classified Regular or
FeatureFlag.  In particular the spec's example with a non-vault host is a
fatal error. -/
theorem c5_secret_reference_fatality :
    (∀ key value : Str,
      goHasPrefix value kvMarker = true ∨
        (goHasPrefix value httpsMarker = true ∧ goContains value vaultHostMarker = true) →
      (∃ e, ValidateAndParseValue key value = .error e) ∨
      (∃ ref, ValidateAndParseValue key value = .ok ⟨.keyvault, value, .kv ref⟩ ∧
        isValidSecretName ref.SecretName = true ∧
        goHasPrefix ref.VaultURL httpsMarker = true ∧
        goContains ref.VaultURL vaultHostMarker = true ∧ ref.SecretName ≠ [])) ∧
    ValidateAndParseValue (str "secrets.x")
        (str "@Microsoft.KeyVault(SecretUri=https://example.com/secrets/x)") =
      .error (str "invalid Key Vault reference: not a valid Key Vault URI") := by
  constructor
  · intro key value hmark
    have hbranch : ∀ h : Except Str SpecialValue, h = ValidateAndParseValue key value →
        (ValidateAndParseValue key value =
          (match parseKeyVaultReference value with
           | .ok kvRef =>
             match validateKeyVaultReference kvRef with
             | some verr => .error (str "Key Vault validation error: " ++ verr)
             | none => .ok ⟨.keyvault, value, .kv kvRef⟩
           | .error e => .error (str "invalid Key Vault reference: " ++ e))) := by
      intro _ _
      unfold ValidateAndParseValue
      rcases hmark with hm | hm
      · rw [if_pos hm]
      · by_cases h1 : goHasPrefix value kvMarker = true
        · rw [if_pos h1]
        · rw [if_neg h1, if_pos (by exact ⟨hm.1, hm.2⟩)]
    have heq := hbranch (ValidateAndParseValue key value) rfl
    cases hp : parseKeyVaultReference value with
    | error e =>
      rw [hp] at heq
      exact Or.inl ⟨_, heq⟩
    | ok kvRef =>
      rw [hp] at heq
      dsimp only at heq
      cases hv : validateKeyVaultReference kvRef with
      | some verr =>
        rw [hv] at heq
        exact Or.inl ⟨_, heq⟩
      | none =>
        rw [hv] at heq
        refine Or.inr ⟨kvRef, heq, parseKeyVaultReference_ok_name value kvRef hp, ?_⟩
        unfold validateKeyVaultReference at hv
        by_cases h1 : ¬ goHasPrefix kvRef.VaultURL httpsMarker = true ∨
            ¬ goContains kvRef.VaultURL vaultHostMarker = true
        · rw [if_pos h1] at hv; exact Option.noConfusion hv
        · rw [if_neg h1] at hv
          rw [not_or, not_not, not_not] at h1
          by_cases h2 : kvRef.SecretName = []
          · rw [if_pos h2] at hv; exact Option.noConfusion hv
          · exact ⟨h1.1, h1.2, h2⟩
  · rfl

theorem c5_secret_reference_fatality_witness :
    (goHasPrefix (str "@Microsoft.KeyVault(SecretUri=https://example.com/secrets/x)")
        kvMarker = true) ∧
    ((∃ e, ValidateAndParseValue (str "secrets.x")
        (str "@Microsoft.KeyVault(SecretUri=https://example.com/secrets/x)") = .error e) ∨
     (∃ ref, ValidateAndParseValue (str "secrets.x")
        (str "@Microsoft.KeyVault(SecretUri=https://example.com/secrets/x)") =
          .ok ⟨.keyvault, str "@Microsoft.KeyVault(SecretUri=https://example.com/secrets/x)",
               .kv ref⟩ ∧
        isValidSecretName ref.SecretName = true ∧
        goHasPrefix ref.VaultURL httpsMarker = true ∧
        goContains ref.VaultURL vaultHostMarker = true ∧ ref.SecretName ≠ [])) :=
  ⟨by decide,
    c5_secret_reference_fatality.1 (str "secrets.x")
      (str "@Microsoft.KeyVault(SecretUri=https://example.com/secrets/x)")
      (Or.inl (by decide))⟩

theorem postValidationErrors_dead (k v : Str) (sv : SpecialValue)
    (h : ValidateAndParseValue k v = .ok sv) : postValidationErrors k v sv = [] := by
  unfold ValidateAndParseValue at h
  by_cases h1 : goHasPrefix v kvMarker = true
  · rw [if_pos h1] at h
    cases hp : parseKeyVaultReference v with
    | error e =>
      rw [hp] at h
      exact Except.noConfusion h
    | ok kvRef =>
      rw [hp] at h
      dsimp only at h
      cases hv : validateKeyVaultReference kvRef with
      | some verr => rw [hv] at h; exact Except.noConfusion h
      | none =>
        rw [hv] at h
        rw [← Except.ok.inj h]
        unfold postValidationErrors
        dsimp only
        rw [hv]
  · rw [if_neg h1] at h
    by_cases h2 : goHasPrefix v httpsMarker = true ∧ goContains v vaultHostMarker = true
    · rw [if_pos h2] at h
      cases hp : parseKeyVaultReference v with
      | error e =>
        rw [hp] at h
        exact Except.noConfusion h
      | ok kvRef =>
        rw [hp] at h
        dsimp only at h
        cases hv : validateKeyVaultReference kvRef with
        | some verr => rw [hv] at h; exact Except.noConfusion h
        | none =>
          rw [hv] at h
          rw [← Except.ok.inj h]
          unfold postValidationErrors
          dsimp only
          rw [hv]
    · rw [if_neg h2] at h
      cases hp : parseFeatureFlag k v with
      | error e =>
        rw [hp] at h
        dsimp only at h
        rw [← Except.ok.inj h]
        rfl
      | ok ff =>
        rw [hp] at h
        dsimp only at h
        cases hv : validateFeatureFlag ff with
        | some verr => rw [hv] at h; exact Except.noConfusion h
        | none =>
          rw [hv] at h
          rw [← Except.ok.inj h]
          unfold postValidationErrors
          dsimp only
          rw [hv]

/-- C9: classification never aborts and collects one error per bad entry:
for every flattened configuration, ValidateConfiguration returns exactly the
list with one parsing_error ValidationError per entry whose classification
fails (in configuration order) together with a nil fatal error — the
re-validation switch inside the loop is dead because ValidateAndParseValue
already enforced those checks — and FlattenAndValidate returns the flattened
mapping alongside that same list and a nil error. -/
theorem c9_validation_collects_all_errors :
    (∀ config : List (Str × Str),
      ValidateConfiguration config =
        (config.filterMap (fun e =>
          match ValidateAndParseValue e.1 e.2 with
          | .error msg => some ⟨e.1, e.2, msg, str "parsing_error"⟩
          | .ok _ => none), none)) ∧
    (∀ data : ConfigTree,
      FlattenAndValidate data =
        (Flatten data, (ValidateConfiguration (Flatten data)).1, none)) := by
  constructor
  · intro config
    unfold ValidateConfiguration
    refine Prod.ext ?_ rfl
    show validateConfigLoop config = _
    induction config with
    | nil => rfl
    | cons e rest ih =>
      obtain ⟨k, v⟩ := e
      show (match ValidateAndParseValue k v with
        | .error e => (⟨k, v, e, str "parsing_error"⟩ : ValidationError) :: validateConfigLoop rest
        | .ok sv => postValidationErrors k v sv ++ validateConfigLoop rest) = _
      rw [List.filterMap_cons]
      cases hv : ValidateAndParseValue k v with
      | error msg =>
        dsimp only
        rw [ih]
      | ok sv =>
        dsimp only
        rw [postValidationErrors_dead k v sv hv, List.nil_append, ih]
  · intro data
    rfl

theorem applyWithRetryAux_zero (env : StoreEnv) (ops : List ChangeOperation) (attempt : Nat) :
    applyWithRetryAux env ops attempt 0 =
      (match batchErr env ops attempt with
       | none => ⟨batchCalls env ops attempt, [], .success⟩
       | some e =>
         ⟨batchCalls env ops attempt, [],
          .exhausted (str "failed after " ++ (toString (engineMaxRetries + 1)).data ++
                      str " attempts: " ++ e)⟩) := rfl

theorem applyWithRetryAux_succ (env : StoreEnv) (ops : List ChangeOperation)
    (attempt countdown : Nat) :
    applyWithRetryAux env ops attempt (countdown + 1) =
      (match batchErr env ops attempt with
       | none => ⟨batchCalls env ops attempt, [], .success⟩
       | some _ =>
         if env.cancelDuringWait attempt then
           ⟨batchCalls env ops attempt, [], .canceled (str "context canceled")⟩
         else
           ⟨batchCalls env ops attempt ++ (applyWithRetryAux env ops (attempt + 1) countdown).calls,
            (attempt + 1) * engineBaseDelay ::
              (applyWithRetryAux env ops (attempt + 1) countdown).waits,
            (applyWithRetryAux env ops (attempt + 1) countdown).outcome⟩) := rfl

/-- C4 counterexample: with two operations where the store call for key A
always succeeds and the one for key B always fails, the code re-issues the
already-successful call for A on every one of the four batch attempts (the
retry wraps client.ApplyChanges, the whole batch), while the claimed
per-store-call retry policy would issue A exactly once; the two call traces
differ. -/
theorem c4_per_call_retry_counterexample :
    (applyWithRetry ⟨fun _ k => decide (k = str "B"), fun _ => false⟩
        [⟨str "add", str "A", str "1", [], []⟩, ⟨str "add", str "B", str "2", [], []⟩]).calls =
      [(0, str "A"), (0, str "B"), (1, str "A"), (1, str "B"),
       (2, str "A"), (2, str "B"), (3, str "A"), (3, str "B")] ∧
    (specPerCallRetry ⟨fun _ k => decide (k = str "B"), fun _ => false⟩
        [⟨str "add", str "A", str "1", [], []⟩, ⟨str "add", str "B", str "2", [], []⟩]).1 =
      [(0, str "A"), (0, str "B"), (1, str "B"), (2, str "B"), (3, str "B")] ∧
    ((applyWithRetry ⟨fun _ k => decide (k = str "B"), fun _ => false⟩
        [⟨str "add", str "A", str "1", [], []⟩, ⟨str "add", str "B", str "2", [], []⟩]).calls.countP
      (fun c => decide (c.2 = str "A")) = 4 ∧
     (specPerCallRetry ⟨fun _ k => decide (k = str "B"), fun _ => false⟩
        [⟨str "add", str "A", str "1", [], []⟩, ⟨str "add", str "B", str "2", [], []⟩]).1.countP
      (fun c => decide (c.2 = str "A")) = 1) := by
  refine ⟨by decide, by decide, by decide, by decide⟩

/-- C4 amended: the retry policy wraps the WHOLE batch apply call (which
issues the store calls sequentially and stops at the first failure), not
each individual store call: up to 3 additional batch attempts beyond the
first, waiting (attempt number) * baseDelay between attempts; cancellation
during a wait returns the context error immediately with no further
attempts; after exhausting the budget the last error is wrapped as
"failed after 4 attempts: ..." and reconciliation stops. -/
theorem c4_batch_retry_policy (env : StoreEnv) (ops : List ChangeOperation) :
    ((∀ j, j ≤ 3 → batchErr env ops j ≠ none) →
      (∀ j, j < 3 → env.cancelDuringWait j = false) →
      ∀ e, batchErr env ops 3 = some e →
      applyWithRetry env ops =
        ⟨batchCalls env ops 0 ++ (batchCalls env ops 1 ++ (batchCalls env ops 2 ++ batchCalls env ops 3)),
         [engineBaseDelay, 2 * engineBaseDelay, 3 * engineBaseDelay],
         .exhausted (str "failed after 4 attempts: " ++ e)⟩) ∧
    (∀ k, k ≤ 3 → batchErr env ops k = none →
      (∀ j, j < k → batchErr env ops j ≠ none) →
      (∀ j, j < k → env.cancelDuringWait j = false) →
      applyWithRetry env ops =
        ⟨(List.range (k + 1)).flatMap (batchCalls env ops),
         (List.range k).map (fun j => (j + 1) * engineBaseDelay), .success⟩) ∧
    (∀ j, j ≤ 2 → (∀ i, i ≤ j → batchErr env ops i ≠ none) →
      (∀ i, i < j → env.cancelDuringWait i = false) →
      env.cancelDuringWait j = true →
      applyWithRetry env ops =
        ⟨(List.range (j + 1)).flatMap (batchCalls env ops),
         (List.range j).map (fun i => (i + 1) * engineBaseDelay),
         .canceled (str "context canceled")⟩) := by
  refine ⟨?_, ?_, ?_⟩
  · intro hF hC e he
    obtain ⟨e0, he0⟩ := Option.ne_none_iff_exists'.mp (hF 0 (by omega))
    obtain ⟨e1, he1⟩ := Option.ne_none_iff_exists'.mp (hF 1 (by omega))
    obtain ⟨e2, he2⟩ := Option.ne_none_iff_exists'.mp (hF 2 (by omega))
    show applyWithRetryAux env ops 0 3 = _
    rw [show (3 : Nat) = 2 + 1 from rfl, applyWithRetryAux_succ, he0]
    dsimp only
    rw [if_neg (by rw [hC 0 (by omega)]; exact Bool.false_ne_true)]
    rw [show (2 : Nat) = 1 + 1 from rfl, applyWithRetryAux_succ, he1]
    dsimp only
    rw [if_neg (by rw [hC 1 (by omega)]; exact Bool.false_ne_true)]
    rw [show (1 : Nat) = 0 + 1 from rfl, applyWithRetryAux_succ, he2]
    dsimp only
    rw [if_neg (by rw [hC 2 (by omega)]; exact Bool.false_ne_true)]
    rw [applyWithRetryAux_zero, he]
    rfl
  · intro k hk hsucc hF hC
    interval_cases k
    · show applyWithRetryAux env ops 0 3 = _
      rw [show (3 : Nat) = 2 + 1 from rfl, applyWithRetryAux_succ, hsucc]
      simp [List.range_succ]
    · obtain ⟨e0, he0⟩ := Option.ne_none_iff_exists'.mp (hF 0 (by omega))
      show applyWithRetryAux env ops 0 3 = _
      rw [show (3 : Nat) = 2 + 1 from rfl, applyWithRetryAux_succ, he0]
      dsimp only
      rw [if_neg (by rw [hC 0 (by omega)]; exact Bool.false_ne_true)]
      rw [show (2 : Nat) = 1 + 1 from rfl, applyWithRetryAux_succ, hsucc]
      simp [List.range_succ]
    · obtain ⟨e0, he0⟩ := Option.ne_none_iff_exists'.mp (hF 0 (by omega))
      obtain ⟨e1, he1⟩ := Option.ne_none_iff_exists'.mp (hF 1 (by omega))
      show applyWithRetryAux env ops 0 3 = _
      rw [show (3 : Nat) = 2 + 1 from rfl, applyWithRetryAux_succ, he0]
      dsimp only
      rw [if_neg (by rw [hC 0 (by omega)]; exact Bool.false_ne_true)]
      rw [show (2 : Nat) = 1 + 1 from rfl, applyWithRetryAux_succ, he1]
      dsimp only
      rw [if_neg (by rw [hC 1 (by omega)]; exact Bool.false_ne_true)]
      rw [show (1 : Nat) = 0 + 1 from rfl, applyWithRetryAux_succ, hsucc]
      simp [List.range_succ]
    · obtain ⟨e0, he0⟩ := Option.ne_none_iff_exists'.mp (hF 0 (by omega))
      obtain ⟨e1, he1⟩ := Option.ne_none_iff_exists'.mp (hF 1 (by omega))
      obtain ⟨e2, he2⟩ := Option.ne_none_iff_exists'.mp (hF 2 (by omega))
      show applyWithRetryAux env ops 0 3 = _
      rw [show (3 : Nat) = 2 + 1 from rfl, applyWithRetryAux_succ, he0]
      dsimp only
      rw [if_neg (by rw [hC 0 (by omega)]; exact Bool.false_ne_true)]
      rw [show (2 : Nat) = 1 + 1 from rfl, applyWithRetryAux_succ, he1]
      dsimp only
      rw [if_neg (by rw [hC 1 (by omega)]; exact Bool.false_ne_true)]
      rw [show (1 : Nat) = 0 + 1 from rfl, applyWithRetryAux_succ, he2]
      dsimp only
      rw [if_neg (by rw [hC 2 (by omega)]; exact Bool.false_ne_true)]
      rw [applyWithRetryAux_zero, hsucc]
      simp [List.range_succ]
  · intro j hj hF hC hcancel
    interval_cases j
    · obtain ⟨e0, he0⟩ := Option.ne_none_iff_exists'.mp (hF 0 (by omega))
      show applyWithRetryAux env ops 0 3 = _
      rw [show (3 : Nat) = 2 + 1 from rfl, applyWithRetryAux_succ, he0]
      dsimp only
      rw [if_pos hcancel]
      simp [List.range_succ]
    · obtain ⟨e0, he0⟩ := Option.ne_none_iff_exists'.mp (hF 0 (by omega))
      obtain ⟨e1, he1⟩ := Option.ne_none_iff_exists'.mp (hF 1 (by omega))
      show applyWithRetryAux env ops 0 3 = _
      rw [show (3 : Nat) = 2 + 1 from rfl, applyWithRetryAux_succ, he0]
      dsimp only
      rw [if_neg (by rw [hC 0 (by omega)]; exact Bool.false_ne_true)]
      rw [show (2 : Nat) = 1 + 1 from rfl, applyWithRetryAux_succ, he1]
      dsimp only
      rw [if_pos hcancel]
      simp [List.range_succ]
    · obtain ⟨e0, he0⟩ := Option.ne_none_iff_exists'.mp (hF 0 (by omega))
      obtain ⟨e1, he1⟩ := Option.ne_none_iff_exists'.mp (hF 1 (by omega))
      obtain ⟨e2, he2⟩ := Option.ne_none_iff_exists'.mp (hF 2 (by omega))
      show applyWithRetryAux env ops 0 3 = _
      rw [show (3 : Nat) = 2 + 1 from rfl, applyWithRetryAux_succ, he0]
      dsimp only
      rw [if_neg (by rw [hC 0 (by omega)]; exact Bool.false_ne_true)]
      rw [show (2 : Nat) = 1 + 1 from rfl, applyWithRetryAux_succ, he1]
      dsimp only
      rw [if_neg (by rw [hC 1 (by omega)]; exact Bool.false_ne_true)]
      rw [show (1 : Nat) = 0 + 1 from rfl, applyWithRetryAux_succ, he2]
      dsimp only
      rw [if_pos hcancel]
      simp [List.range_succ]

theorem c4_batch_retry_policy_witness :
    (batchErr ⟨fun _ _ => true, fun _ => false⟩ [⟨str "add", str "A", str "1", [], []⟩] 3 =
      some (str "failed to set setting A")) ∧
    applyWithRetry ⟨fun _ _ => true, fun _ => false⟩ [⟨str "add", str "A", str "1", [], []⟩] =
      ⟨[(0, str "A"), (1, str "A"), (2, str "A"), (3, str "A")],
       [engineBaseDelay, 2 * engineBaseDelay, 3 * engineBaseDelay],
       .exhausted (str "failed after 4 attempts: failed to set setting A")⟩ := by
  refine ⟨by decide, ?_⟩
  have h := (c4_batch_retry_policy ⟨fun _ _ => true, fun _ => false⟩
    [⟨str "add", str "A", str "1", [], []⟩]).1
    (fun j _ h => Option.noConfusion h) (fun j _ => rfl)
    (str "failed to set setting A") (by decide)
  rw [h]
  decide

theorem hexVal_hexDigitChar : ∀ n, n < 16 → hexVal (hexDigitChar n) = some n := by decide

theorem jsonEscape_cons (c : Char) (cs : Str) :
    jsonEscape (c :: cs) = jsonEscapeChar c ++ jsonEscape cs := by
  unfold jsonEscape
  rw [List.map_cons, List.flatten_cons]

theorem parseJStringBody_escape (u : Str) : ∀ rest : Str,
    parseJStringBody (jsonEscape u ++ '"' :: rest) = some (u, rest) := by
  induction u with
  | nil =>
    intro rest
    rw [parseJStringBody.eq_def]
    rfl
  | cons c cs ih =>
    intro rest
    rw [jsonEscape_cons, List.append_assoc]
    unfold jsonEscapeChar
    by_cases h1 : c = '"'
    · subst h1
      rw [if_pos rfl, parseJStringBody.eq_def]
      show (parseJStringBody (jsonEscape cs ++ '"' :: rest)).map (fun p => ('"' :: p.1, p.2)) = _
      rw [ih rest]
      rfl
    rw [if_neg h1]
    by_cases h2 : c = '\\'
    · subst h2
      rw [if_pos rfl, parseJStringBody.eq_def]
      show (parseJStringBody (jsonEscape cs ++ '"' :: rest)).map (fun p => ('\\' :: p.1, p.2)) = _
      rw [ih rest]
      rfl
    rw [if_neg h2]
    by_cases h3 : c = '\n'
    · subst h3
      rw [if_pos rfl, parseJStringBody.eq_def]
      show (parseJStringBody (jsonEscape cs ++ '"' :: rest)).map (fun p => ('\n' :: p.1, p.2)) = _
      rw [ih rest]
      rfl
    rw [if_neg h3]
    by_cases h4 : c = '\r'
    · subst h4
      rw [if_pos rfl, parseJStringBody.eq_def]
      show (parseJStringBody (jsonEscape cs ++ '"' :: rest)).map (fun p => ('\r' :: p.1, p.2)) = _
      rw [ih rest]
      rfl
    rw [if_neg h4]
    by_cases h5 : c = '\t'
    · subst h5
      rw [if_pos rfl, parseJStringBody.eq_def]
      show (parseJStringBody (jsonEscape cs ++ '"' :: rest)).map (fun p => ('\t' :: p.1, p.2)) = _
      rw [ih rest]
      rfl
    rw [if_neg h5]
    by_cases h6 : c.toNat < 0x20
    · rw [if_pos h6]
      have hd1 := hexVal_hexDigitChar (c.toNat / 16) (by omega)
      have hd2 := hexVal_hexDigitChar (c.toNat % 16) (by omega)
      rw [parseJStringBody.eq_def]
      show (match hexVal '0', hexVal '0', hexVal (hexDigitChar (c.toNat / 16)),
                 hexVal (hexDigitChar (c.toNat % 16)) with
           | some a, some b, some c3, some d =>
             (parseJStringBody (jsonEscape cs ++ '"' :: rest)).map
               (fun p : Str × Str => (Char.ofNat (((a * 16 + b) * 16 + c3) * 16 + d) :: p.1, p.2))
           | _, _, _, _ => none) = _
      rw [hd1, hd2, show hexVal '0' = some 0 from rfl]
      dsimp only
      rw [ih rest]
      have harith : ((0 * 16 + 0) * 16 + c.toNat / 16) * 16 + c.toNat % 16 = c.toNat := by omega
      rw [harith, Char.ofNat_toNat]
      rfl
    rw [if_neg h6]
    by_cases h7 : c = '<'
    · subst h7
      rw [if_pos rfl, parseJStringBody.eq_def]
      show (parseJStringBody (jsonEscape cs ++ '"' :: rest)).map
          (fun p => (Char.ofNat 0x3c :: p.1, p.2)) = _
      rw [ih rest]
      rfl
    rw [if_neg h7]
    by_cases h8 : c = '>'
    · subst h8
      rw [if_pos rfl, parseJStringBody.eq_def]
      show (parseJStringBody (jsonEscape cs ++ '"' :: rest)).map
          (fun p => (Char.ofNat 0x3e :: p.1, p.2)) = _
      rw [ih rest]
      rfl
    rw [if_neg h8]
    by_cases h9 : c = '&'
    · subst h9
      rw [if_pos rfl, parseJStringBody.eq_def]
      show (parseJStringBody (jsonEscape cs ++ '"' :: rest)).map
          (fun p => (Char.ofNat 0x26 :: p.1, p.2)) = _
      rw [ih rest]
      rfl
    rw [if_neg h9]
    by_cases h10 : c.toNat = 0x2028
    · rw [if_pos h10]
      have hc : c = Char.ofNat 0x2028 := by rw [← h10, Char.ofNat_toNat]
      rw [parseJStringBody.eq_def]
      show (parseJStringBody (jsonEscape cs ++ '"' :: rest)).map
          (fun p => (Char.ofNat 0x2028 :: p.1, p.2)) = _
      rw [ih rest, hc]
      rfl
    rw [if_neg h10]
    by_cases h11 : c.toNat = 0x2029
    · rw [if_pos h11]
      have hc : c = Char.ofNat 0x2029 := by rw [← h11, Char.ofNat_toNat]
      rw [parseJStringBody.eq_def]
      show (parseJStringBody (jsonEscape cs ++ '"' :: rest)).map
          (fun p => (Char.ofNat 0x2029 :: p.1, p.2)) = _
      rw [ih rest, hc]
      rfl
    rw [if_neg h11, List.singleton_append, parseJStringBody.eq_def]
    dsimp only
    rw [if_neg h1, if_neg h2, ih rest]
    rfl

theorem parseJStringBody_quote (T : Str) : parseJStringBody ('"' :: T) = some ([], T) := by
  rw [parseJStringBody.eq_def]
  rfl

theorem parseJStringBody_cons_plain (c : Char) (T : Str) (h1 : ¬ c = '"') (h2 : ¬ c = '\\') :
    parseJStringBody (c :: T) = (parseJStringBody T).map (fun p => (c :: p.1, p.2)) := by
  rw [parseJStringBody.eq_def]
  dsimp only
  rw [if_neg h1, if_neg h2]

theorem parseJStringBody_uri (T : Str) :
    parseJStringBody ('u' :: 'r' :: 'i' :: '"' :: T) = some (str "uri", T) := by
  rw [parseJStringBody_cons_plain 'u' _ (by decide) (by decide),
      parseJStringBody_cons_plain 'r' _ (by decide) (by decide),
      parseJStringBody_cons_plain 'i' _ (by decide) (by decide),
      parseJStringBody_quote]
  rfl

theorem jsonDecodeStringField_marshal (u : Str) :
    jsonDecodeStringField (jsonMarshalUriObj u) = some (str "uri", u) := by
  unfold jsonDecodeStringField
  rw [show expectChar '\x7b' (jsonMarshalUriObj u) =
        some ('"' :: 'u' :: 'r' :: 'i' :: '"' :: ':' :: '"' ::
          (jsonEscape u ++ '"' :: '\x7d' :: [])) from rfl,
      Option.some_bind]
  rw [show expectChar '"' ('"' :: 'u' :: 'r' :: 'i' :: '"' :: ':' :: '"' ::
        (jsonEscape u ++ '"' :: '\x7d' :: [])) =
        some ('u' :: 'r' :: 'i' :: '"' :: ':' :: '"' ::
          (jsonEscape u ++ '"' :: '\x7d' :: [])) from rfl,
      Option.some_bind]
  rw [parseJStringBody_uri (':' :: '"' :: (jsonEscape u ++ '"' :: '\x7d' :: [])),
      Option.some_bind]
  rw [show expectChar ':' ((str "uri", ':' :: '"' ::
        (jsonEscape u ++ '"' :: '\x7d' :: [])).2) =
        some ('"' :: (jsonEscape u ++ '"' :: '\x7d' :: [])) from rfl,
      Option.some_bind]
  rw [show expectChar '"' ('"' :: (jsonEscape u ++ '"' :: '\x7d' :: [])) =
        some (jsonEscape u ++ '"' :: '\x7d' :: []) from rfl,
      Option.some_bind]
  rw [parseJStringBody_escape u ('\x7d' :: []), Option.some_bind]
  rfl

theorem splitSchemeSep_eq (s : Str) :
    ∀ a b : Str, splitSchemeSep s = some (a, b) → s = a ++ str "://" ++ b := by
  induction s with
  | nil => intro a b h; exact Option.noConfusion h
  | cons c cs ih =>
    intro a b h
    unfold splitSchemeSep at h
    by_cases hp : goHasPrefix (c :: cs) (str "://") = true
    · rw [if_pos hp] at h
      obtain ⟨t, ht⟩ := of_decide_eq_true hp
      obtain ⟨h1, h2⟩ := Prod.mk.injEq .. ▸ Option.some_inj.mp h
      rw [← h1, ← h2, List.nil_append, ← ht,
          show (3 : Nat) = (str "://").length from rfl, List.drop_left]
    · rw [if_neg hp] at h
      cases hs : splitSchemeSep cs with
      | none => rw [hs] at h; exact Option.noConfusion h
      | some p =>
        rw [hs] at h
        obtain ⟨h1, h2⟩ := Prod.mk.injEq .. ▸ Option.some_inj.mp h
        rw [← h1, ← h2]
        have := ih p.1 p.2 (by rw [hs])
        rw [List.cons_append, List.cons_append, ← this]

theorem goURLParse_host (s : Str) (u : GoURL) (h : goURLParse s = some u) :
    u.Host = [] ∨ u.Host <:+: s := by
  unfold goURLParse at h
  by_cases hctl : s.any (fun c => c.toNat < 0x20) = true
  · rw [if_pos hctl] at h
    exact Option.noConfusion h
  · rw [if_neg hctl] at h
    cases hs : splitSchemeSep s with
    | none =>
      rw [hs] at h
      cases hd : percentDecode (s.takeWhile (fun c => c ≠ '?' ∧ c ≠ '#')) with
      | none => rw [hd] at h; exact Option.noConfusion h
      | some p =>
        rw [hd] at h
        rw [← Option.some_inj.mp h]
        exact Or.inl rfl
    | some sp =>
      obtain ⟨scheme, rest⟩ := sp
      rw [hs] at h
      dsimp only at h
      by_cases h0 : scheme = []
      · rw [if_pos h0] at h; exact Option.noConfusion h
      · rw [if_neg h0] at h
        by_cases h1 : validScheme scheme = true
        · rw [if_pos h1] at h
          cases hd : percentDecode ((rest.drop (rest.takeWhile
              (fun c => c ≠ '/' ∧ c ≠ '?' ∧ c ≠ '#')).length).takeWhile
              (fun c => c ≠ '?' ∧ c ≠ '#')) with
          | none => rw [hd] at h; exact Option.noConfusion h
          | some p =>
            rw [hd] at h
            rw [← Option.some_inj.mp h]
            refine Or.inr ?_
            have hpre : rest.takeWhile (fun c => c ≠ '/' ∧ c ≠ '?' ∧ c ≠ '#') <+: rest :=
              ⟨rest.dropWhile (fun c => c ≠ '/' ∧ c ≠ '?' ∧ c ≠ '#'),
               List.takeWhile_append_dropWhile _ _⟩
            have hsuf : rest <:+ s := by
              rw [splitSchemeSep_eq s scheme rest hs]
              exact ⟨scheme ++ str "://", by rw [List.append_assoc]⟩
            exact List.IsInfix.trans hpre.isInfix hsuf.isInfix
        · rw [if_neg h1] at h
          cases hd : percentDecode (s.takeWhile (fun c => c ≠ '?' ∧ c ≠ '#')) with
          | none => rw [hd] at h; exact Option.noConfusion h
          | some p =>
            rw [hd] at h
            rw [← Option.some_inj.mp h]
            exact Or.inl rfl

theorem parseKeyVaultURI_contains (uri : Str) (ref : KeyVaultReference)
    (h : parseKeyVaultURI uri = .ok ref) : goContains uri vaultHostMarker = true := by
  unfold parseKeyVaultURI at h
  cases hu : goURLParse uri with
  | none => rw [hu] at h; exact Except.noConfusion h
  | some u =>
    rw [hu] at h
    dsimp only at h
    by_cases h1 : ¬ goContains u.Host vaultHostMarker = true
    · rw [if_pos h1] at h; exact Except.noConfusion h
    · rw [if_neg h1] at h
      have hcont : goContains u.Host vaultHostMarker = true := not_not.mp h1
      have hinf : vaultHostMarker <:+: u.Host := of_decide_eq_true hcont
      rcases goURLParse_host uri u hu with hempty | hhost
      · exfalso
        rw [hempty] at hinf
        have := hinf.length_le
        simp at this
        exact absurd this (by decide)
      · exact decide_eq_true (List.IsInfix.trans hinf hhost)

theorem parseKeyVaultReference_extract (v : Str) (ref : KeyVaultReference)
    (h : parseKeyVaultReference v = .ok ref) :
    parseKeyVaultURI (extractUri v) = .ok ref := by
  unfold parseKeyVaultReference at h
  unfold extractUri
  by_cases h1 : goHasPrefix v kvMarker = true ∧ goHasSuffix v (str ")") = true
  · rw [if_pos (by exact ⟨h1.1, h1.2⟩)] at h
    rw [if_pos (by exact ⟨h1.1, h1.2⟩)]
    dsimp only at h
    cases hs : mapLookup (parseKVParams ((v.dropLast).drop kvMarker.length)) (str "SecretUri") with
    | none => rw [hs] at h; exact Except.noConfusion h
    | some secretURI =>
      rw [hs] at h
      exact h
  · rw [if_neg (by intro hc; exact h1 ⟨hc.1, hc.2⟩)] at h
    rw [if_neg (by intro hc; exact h1 ⟨hc.1, hc.2⟩)]
    by_cases h2 : goHasPrefix v httpsMarker = true ∧ goContains v vaultHostMarker = true
    · rw [if_pos (by exact ⟨h2.1, h2.2⟩)] at h
      exact h
    · rw [if_neg (by intro hc; exact h2 ⟨hc.1, hc.2⟩)] at h
      by_cases h3 : goHasPrefix v httpsMarker = true
      · rw [if_pos h3] at h; exact Except.noConfusion h
      · rw [if_neg h3] at h; exact Except.noConfusion h

/-- C6: wire-encoding normalization round-trip.  For every value that parses
as a Key Vault reference (canonical @Microsoft.KeyVault(SecretUri=...) form
or bare vault-URI form), normalizing the store's read-back of the written
JSON encoding yields the canonical @Microsoft.KeyVault(SecretUri=uri)
textual form of the reference's URI; the legacy textual shape and the bare
https vault-URI shape normalize to that same canonical form; and a local
value already in canonical form is reported unchanged after the
encode/normalize round trip, which is the diff-stability property. -/
theorem c6_wire_encoding_normalization (v : Str) (ref : KeyVaultReference)
    (h : parseKeyVaultReference v = .ok ref) :
    normalizeRetrievedValue (formatKeyVaultReference v) = kvWrap (extractUri v) ∧
    normalizeRetrievedValue (kvWrap (extractUri v)) = kvWrap (extractUri v) ∧
    (goHasPrefix (extractUri v) httpsMarker = true →
      normalizeRetrievedValue (extractUri v) = kvWrap (extractUri v)) ∧
    (v = kvWrap (extractUri v) →
      normalizeRetrievedValue (formatKeyVaultReference v) = v) := by
  have huri := parseKeyVaultReference_extract v ref h
  have hcont : goContains (extractUri v) vaultHostMarker = true :=
    parseKeyVaultURI_contains (extractUri v) ref huri
  have h1 : normalizeRetrievedValue (formatKeyVaultReference v) = kvWrap (extractUri v) := by
    have hpre : goHasPrefix (jsonMarshalUriObj (extractUri v)) (str "\x7b") = true :=
      decide_eq_true ⟨'"' :: 'u' :: 'r' :: 'i' :: '"' :: ':' :: '"' ::
        (jsonEscape (extractUri v) ++ '"' :: '\x7d' :: []), rfl⟩
    have hsuf : goHasSuffix (jsonMarshalUriObj (extractUri v)) (str "\x7d") = true := by
      apply decide_eq_true
      refine ⟨'\x7b' :: '"' :: 'u' :: 'r' :: 'i' :: '"' :: ':' :: '"' ::
        (jsonEscape (extractUri v) ++ ['"']), ?_⟩
      show ('\x7b' :: '"' :: 'u' :: 'r' :: 'i' :: '"' :: ':' :: '"' ::
        (jsonEscape (extractUri v) ++ ['"'])) ++ ['\x7d'] = jsonMarshalUriObj (extractUri v)
      rw [show jsonMarshalUriObj (extractUri v) = '\x7b' :: '"' :: 'u' :: 'r' :: 'i' :: '"' ::
        ':' :: '"' :: (jsonEscape (extractUri v) ++ '"' :: '\x7d' :: []) from rfl]
      simp
    show normalizeRetrievedValue (jsonMarshalUriObj (extractUri v)) = _
    unfold normalizeRetrievedValue
    rw [if_pos ⟨hpre, hsuf⟩, jsonDecodeStringField_marshal (extractUri v)]
    dsimp only
    rw [if_pos ⟨rfl, hcont⟩]
  refine ⟨h1, ?_, ?_, ?_⟩
  · have hnotjson : ¬ (goHasPrefix (kvWrap (extractUri v)) (str "\x7b") = true ∧
        goHasSuffix (kvWrap (extractUri v)) (str "\x7d") = true) := by
      rintro ⟨hp, _⟩
      obtain ⟨t, ht⟩ := of_decide_eq_true hp
      have hhead := congrArg (fun l : Str => l.headD ' ') ht
      dsimp only at hhead
      rw [show (kvWrap (extractUri v)).headD ' ' = '@' from rfl] at hhead
      rw [show ((str "\x7b" ++ t).headD ' ') = '\x7b' from rfl] at hhead
      exact absurd hhead (by decide)
    have hpre2 : goHasPrefix (kvWrap (extractUri v)) kvMarker = true := by
      apply decide_eq_true
      exact ⟨str "SecretUri=" ++ extractUri v ++ str ")", by simp [kvWrap, List.append_assoc]⟩
    unfold normalizeRetrievedValue
    rw [if_neg hnotjson]
    unfold normalizeFallback
    rw [if_pos hpre2]
  · intro hp
    obtain ⟨t0, ht0⟩ := of_decide_eq_true hp
    have hnotjson : ¬ (goHasPrefix (extractUri v) (str "\x7b") = true ∧
        goHasSuffix (extractUri v) (str "\x7d") = true) := by
      rintro ⟨hp1, _⟩
      obtain ⟨t1, ht1⟩ := of_decide_eq_true hp1
      have hhead := congrArg (fun l : Str => l.headD ' ') (ht1.trans ht0.symm)
      dsimp only at hhead
      rw [show ((str "\x7b" ++ t1).headD ' ') = '\x7b' from rfl] at hhead
      rw [show ((httpsMarker ++ t0).headD ' ') = 'h' from rfl] at hhead
      exact absurd hhead (by decide)
    have hnotkv : ¬ goHasPrefix (extractUri v) kvMarker = true := by
      intro hp2
      obtain ⟨t2, ht2⟩ := of_decide_eq_true hp2
      have hhead := congrArg (fun l : Str => l.headD ' ') (ht2.trans ht0.symm)
      dsimp only at hhead
      rw [show ((kvMarker ++ t2).headD ' ') = '@' from rfl] at hhead
      rw [show ((httpsMarker ++ t0).headD ' ') = 'h' from rfl] at hhead
      exact absurd hhead (by decide)
    unfold normalizeRetrievedValue
    rw [if_neg hnotjson]
    unfold normalizeFallback
    rw [if_neg hnotkv, if_pos ⟨hp, hcont⟩]
  · intro hv
    rw [h1]
    exact hv.symm

theorem c6_wire_encoding_normalization_witness :
    (parseKeyVaultReference
        (str "@Microsoft.KeyVault(SecretUri=https://myvault.vault.azure.net/secrets/api-key)") =
      .ok ⟨str "https://myvault.vault.azure.net", str "api-key", []⟩) ∧
    normalizeRetrievedValue (formatKeyVaultReference
        (str "@Microsoft.KeyVault(SecretUri=https://myvault.vault.azure.net/secrets/api-key)")) =
      kvWrap (extractUri
        (str "@Microsoft.KeyVault(SecretUri=https://myvault.vault.azure.net/secrets/api-key)")) :=
  ⟨rfl,
   (c6_wire_encoding_normalization
      (str "@Microsoft.KeyVault(SecretUri=https://myvault.vault.azure.net/secrets/api-key)")
      ⟨str "https://myvault.vault.azure.net", str "api-key", []⟩ rfl).1⟩
